import Mathlib

/-!
Verification development for the NutriCopy OCR post-processing pipeline.

The definitions below are a shallow embedding of the TypeScript/JavaScript
sources:
  * `lib/ocrPost.ts`    — line reconstruction, noise filtering, value/unit
    candidate extraction, label attachment, row grouping;
  * `lib/ocrPost.server.cjs` — the server-side nutrient-key matcher;
  * `app/index.tsx`     — `serverToLabelData`, serving-size handling and the
    per-serve / per-100g cross-validation pass.

JavaScript numbers are embedded as rationals (`ℚ`); all numeric literals in
the sources are exactly representable.  JavaScript strings are Lean `String`s
and the handful of regular expressions appearing in the sources are embedded
as explicit character-list scanners.  JavaScript `Array.prototype.sort`
(guaranteed stable) is embedded as a stable insertion sort parameterised by
the strict "comes before" relation derived from the comparator.
-/

namespace NutriCopy

/-! ### JavaScript-level character and string helpers -/

/-- The character class `\s` of the JavaScript regexps used by the sources
(ASCII whitespace plus NBSP). -/
def jsIsWs (c : Char) : Bool :=
  c = ' ' || c = '\t' || c = '\n' || c = '\x0d' || c = '\x0b' || c = '\x0c' || c = ' '

/-- A character range test for the ASCII classes below. -/
def charBetween (lo hi c : Char) : Bool := lo ≤ c && c ≤ hi

/-- `[A-Za-z]`. -/
def jsAsciiLetter (c : Char) : Bool :=
  charBetween 'a' 'z' c || charBetween 'A' 'Z' c

/-- The character class `\w` (`[A-Za-z0-9_]`). -/
def jsWordChar (c : Char) : Bool :=
  jsAsciiLetter c || c.isDigit || c = '_'

/-- JavaScript `String.prototype.trim` on a character list. -/
def jsTrimL (l : List Char) : List Char :=
  ((l.dropWhile jsIsWs).reverse.dropWhile jsIsWs).reverse

/-- JavaScript `String.prototype.trim`. -/
def jsTrim (s : String) : String := ⟨jsTrimL s.data⟩

/-- JavaScript `String.prototype.toLowerCase` (ASCII case folding suffices
for every string the pipeline inspects). -/
def jsToLower (s : String) : String := ⟨s.data.map Char.toLower⟩

/-- Substring test on character lists (JavaScript `String.prototype.includes`). -/
def containsL : List Char → List Char → Bool
  | needle, [] => needle.isEmpty
  | needle, c :: rest => needle.isPrefixOf (c :: rest) || containsL needle rest

/-- JavaScript `s.includes(sub)`. -/
def strIncludes (s sub : String) : Bool := containsL sub.data s.data

/-- JavaScript `s.startsWith(sub)`. -/
def strStartsWith (s sub : String) : Bool := sub.data.isPrefixOf s.data

/-- `replace(/\s+/g, " ")`: each maximal whitespace run becomes one space.
The flag records whether the previous character was part of a run. -/
def collapseWsAux : List Char → Bool → List Char
  | [], _ => []
  | c :: rest, prevWs =>
    if jsIsWs c then
      if prevWs then collapseWsAux rest true
      else ' ' :: collapseWsAux rest true
    else c :: collapseWsAux rest false

/-- `s.replace(/\s+/g, " ")`. -/
def collapseWs (s : String) : String := ⟨collapseWsAux s.data false⟩

/-- `join(" ")`. -/
def joinSpace : List String → String
  | [] => ""
  | [s] => s
  | s :: rest => s ++ " " ++ joinSpace rest

/-! ### Stable sorting (JavaScript `Array.prototype.sort`)

`lt a b` holds when the JavaScript comparator returns a negative number on
`(a, b)`; every comparator in the sources is a lexicographic numeric
comparison, so `lt` is a strict weak order and the stable sort below produces
exactly the array `sort` produces. -/

def insertBy (lt : α → α → Bool) (a : α) : List α → List α
  | [] => [a]
  | b :: bs => if lt a b then a :: b :: bs else b :: insertBy lt a bs

def jsSortBy (lt : α → α → Bool) (l : List α) : List α :=
  l.foldl (fun acc a => insertBy lt a acc) []

/-! ### Decimal number parsing (`\d+(?:\.\d+)?`) -/

def digitsToNat (l : List Char) : ℕ :=
  l.foldl (fun acc c => 10 * acc + (c.toNat - '0'.toNat)) 0

/-- Value of an integer digit run followed by an optional fraction run. -/
def decimalValue (intPart : List Char) (fracPart : List Char) : ℚ :=
  match fracPart with
  | [] => (digitsToNat intPart : ℚ)
  | _ => (digitsToNat intPart : ℚ) + (digitsToNat fracPart : ℚ) / ((10 : ℚ) ^ fracPart.length)

/-- Match `\d+(?:\.\d+)?` at the head of `l`.  Returns the matched
characters, their numeric value and the rest of the input.  Greedy matching
is exact here: no unit alternative begins with a digit or a dot, so the
regex engine never backtracks into the number. -/
def matchNumber (l : List Char) : Option (List Char × ℚ × List Char) :=
  let d1 := l.takeWhile Char.isDigit
  let r1 := l.dropWhile Char.isDigit
  if d1.isEmpty then none
  else
    match r1 with
    | '.' :: r2 =>
      let d2 := r2.takeWhile Char.isDigit
      let r3 := r2.dropWhile Char.isDigit
      if d2.isEmpty then some (d1, decimalValue d1 [], r1)
      else some (d1 ++ '.' :: d2, decimalValue d1 d2, r3)
    | _ => some (d1, decimalValue d1 [], r1)

/-- `^\d+(?:\.\d+)?$` holds of the full character list. -/
def isNumberChars (l : List Char) : Bool :=
  match matchNumber l with
  | some (_, _, rest) => rest.isEmpty
  | none => false

/-! ### Unit grammar (`mg|g|kg|mcg|µg|ug|kj|kcal|cal|ml|%`, case-insensitive) -/

/-- The unit alternation of `ocrPost.ts`, in source order. -/
def unitAlternatives : List String :=
  ["mg", "g", "kg", "mcg", "µg", "ug", "kj", "kcal", "cal", "ml", "%"]

/-- Anchored, case-insensitive test against the whole alternation. -/
def isUnitChars (l : List Char) : Bool :=
  unitAlternatives.any (fun u => (l.map Char.toLower) = u.data)

/-- Leftmost alternative of the unit alternation matching a prefix of `l`
(regex alternation takes the first alternative, not the longest match).
Returns the matched original characters and the rest. -/
def matchUnitPrefix (l : List Char) : Option (List Char × List Char) :=
  (unitAlternatives.filter
      (fun u => u.data.isPrefixOf (l.map Char.toLower))).head?.map
    (fun u => (l.take u.data.length, l.drop u.data.length))

/-! ### `lib/ocrPost.ts`: normalisation helpers -/

/-- `finite` of `ocrPost.ts`: a missing / non-finite number becomes the
fallback.  `Option ℚ` embeds a JavaScript number that may be `NaN`,
`undefined` or `±Infinity` (`none`). -/
def finite (n : Option ℚ) (fallback : ℚ := 0) : ℚ := n.getD fallback

/-- `replace(/(\d),(?=\d{3}\b)/g, "$1")`: drop a comma standing between a
digit and exactly three digits followed by a word boundary.  The lookahead
digits are not consumed, so scanning resumes at the first of them. -/
def stripThousandsL : List Char → List Char
  | [] => []
  | c :: ',' :: d1 :: d2 :: d3 :: tail =>
    if c.isDigit && d1.isDigit && d2.isDigit && d3.isDigit &&
        (match tail with | [] => true | x :: _ => !jsWordChar x) then
      c :: stripThousandsL (d1 :: d2 :: d3 :: tail)
    else
      c :: stripThousandsL (',' :: d1 :: d2 :: d3 :: tail)
  | c :: rest => c :: stripThousandsL rest

/-- One step of `replace(/\bO\s*mg\b/gi, "0mg")`.  `prev` is the character
preceding the scan position in the original string (for the leading `\b`);
`fuel` only certifies termination and is chosen large enough to never run
out. -/
def fixOmgAux : ℕ → Option Char → List Char → List Char
  | 0, _, l => l
  | _ + 1, _, [] => []
  | fuel + 1, prev, c :: rest =>
    if (c = 'O' || c = 'o') &&
        (match prev with | none => true | some p => !jsWordChar p) then
      match rest.dropWhile jsIsWs with
      | m :: g :: tail =>
        if (m = 'm' || m = 'M') && (g = 'g' || g = 'G') &&
            (match tail with | [] => true | x :: _ => !jsWordChar x) then
          '0' :: 'm' :: 'g' :: fixOmgAux fuel (some g) tail
        else c :: fixOmgAux fuel (some c) rest
      | _ => c :: fixOmgAux fuel (some c) rest
    else c :: fixOmgAux fuel (some c) rest

/-- `s.replace(/\bO\s*mg\b/gi, "0mg")`. -/
def fixOmg (l : List Char) : List Char := fixOmgAux (l.length + 1) none l

/-- `normalizeLineForExtraction`: thousands separators removed, then the
`"O mg"` → `"0mg"` OCR typo fix. -/
def normalizeLineForExtraction (line : String) : String :=
  ⟨fixOmg (stripThousandsL line.data)⟩

/-- `normalizeTokenTextForExtraction`: same fixes after a `trim`. -/
def normalizeTokenTextForExtraction (tokenText : String) : String :=
  ⟨fixOmg (stripThousandsL (jsTrimL tokenText.data))⟩

/-- `normalizeUnit` of `ocrPost.ts`. -/
def normalizeUnit (u : String) : String :=
  let s := jsTrim u
  if s = "" then ""
  else if jsToLower s = "kj" then "kJ"
  else if jsToLower s = "kcal" then "kcal"
  else if s = "µg" then "mcg"
  else jsToLower s

/-! ### `lib/ocrPost.ts`: token classifiers -/

/-- `isNumberOnly`: `^\d+(?:\.\d+)?$`. -/
def isNumberOnly (s : String) : Bool := isNumberChars s.data

/-- `isUnitOnly`: the trimmed text is exactly one unit alternative. -/
def isUnitOnly (s : String) : Bool := isUnitChars (jsTrimL s.data)

/-- `tokenHasDigits`: `/\d/.test(s)`. -/
def tokenHasDigits (s : String) : Bool := s.data.any Char.isDigit

/-- `isConnectorToken`. -/
def isConnectorToken (s : String) : Bool :=
  let t := jsTrim s
  t = "," || t = "-" || t = "–" || t = "—" || t = ":" || t = "/" || t = "."

/-- `isWordLikeToken`. -/
def isWordLikeToken (s : String) : Bool :=
  let t := jsTrim s
  if t = "" then false
  else if isUnitOnly t then false
  else if tokenHasDigits t then false
  else t.data.any jsAsciiLetter

/-! ### `lib/ocrPost.ts`: noise predicates -/

/-- `isDailyValuesNoise`: Daily-Value boilerplate / table lines. -/
def isDailyValuesNoise (originalLineText : String) : Bool :=
  let s := jsToLower (normalizeLineForExtraction originalLineText)
  strIncludes s "daily value" || strIncludes s "daily values" ||
  strIncludes s "percent daily values" || strIncludes s "calorie diet" ||
  strIncludes s "caloric needs" || strIncludes s "your daily values" ||
  strStartsWith s "calories :" || strIncludes s "calories per gram"

/-- `isHeaderNoise`: column-header / section-heading lines. -/
def isHeaderNoise (originalLineText : String) : Bool :=
  let s := jsToLower (normalizeLineForExtraction originalLineText)
  (strIncludes s "avg." && strIncludes s "quantity") ||
  (strIncludes s "avg" && strIncludes s "quantity") ||
  strIncludes s "per 100" || strIncludes s "per serving per" ||
  jsTrim s = "nutrition information" || jsTrim s = "nutrition facts"

/-! ### `lib/ocrPost.ts`: data model -/

structure ValueUnitCandidate where
  raw : String
  value : ℚ
  unit : String
  line : String
  lineIndex : ℕ
  tokenIndex : Option ℕ
deriving DecidableEq, Repr

structure LabeledValueUnitCandidate where
  raw : String
  value : ℚ
  unit : String
  line : String
  lineIndex : ℕ
  tokenIndex : Option ℕ
  label : String
deriving DecidableEq, Repr

structure LabelRow where
  label : String
  primary : LabeledValueUnitCandidate
  alternates : List LabeledValueUnitCandidate
deriving DecidableEq, Repr

structure Token where
  text : String
  xMin : ℚ
  xMax : ℚ
  yMin : ℚ
  yMax : ℚ
  yMid : ℚ
  h : ℚ
deriving DecidableEq, Repr

structure BuiltLine where
  text : String
  tokens : List Token
deriving DecidableEq, Repr

structure Vertex where
  x : Option ℚ
  y : Option ℚ
deriving DecidableEq, Repr

structure OcrItem where
  text : String
  boundingBox : List Vertex
deriving DecidableEq, Repr

structure OcrResultLike where
  fullText : String
  items : List OcrItem
deriving DecidableEq, Repr

/-- `dropPercentCandidates` (the TS function is generic; this is its
instance at `ValueUnitCandidate`). -/
def dropPercentCandidates (arr : List ValueUnitCandidate) : List ValueUnitCandidate :=
  arr.filter (fun c => c.unit ≠ "%" && !strIncludes c.raw "%")

/-- `dropPercentCandidates` at `LabeledValueUnitCandidate`. -/
def dropPercentCandidatesL (arr : List LabeledValueUnitCandidate) : List LabeledValueUnitCandidate :=
  arr.filter (fun c => c.unit ≠ "%" && !strIncludes c.raw "%")

/-! ### `lib/ocrPost.ts`: token normaliser and line reconstruction -/

/-- `Math.min` over a spread of a non-empty array. -/
def listMin (x : ℚ) (xs : List ℚ) : ℚ := xs.foldl min x

/-- `Math.max` over a spread of a non-empty array. -/
def listMax (x : ℚ) (xs : List ℚ) : ℚ := xs.foldl max x

/-- `tokenFromItem`: trims the text, drops empty-text / vertex-less items,
and computes the bounding rectangle of the vertices. -/
def tokenFromItem (it : OcrItem) : Option Token :=
  let text := jsTrim it.text
  if text = "" then none
  else
    match it.boundingBox with
    | [] => none
    | v :: vs =>
      let xs := (v :: vs).map (fun w => finite w.x 0)
      let ys := (v :: vs).map (fun w => finite w.y 0)
      let xMin := listMin xs.headI xs.tail
      let xMax := listMax xs.headI xs.tail
      let yMin := listMin ys.headI ys.tail
      let yMax := listMax ys.headI ys.tail
      let h := max 1 (yMax - yMin)
      let yMid := (yMin + yMax) / 2
      some ⟨text, xMin, xMax, yMin, yMax, yMid, h⟩

/-- `median` of `ocrPost.ts` (ascending numeric sort, middle element or the
mean of the two middle elements). -/
def median (nums : List ℚ) : ℚ :=
  match nums with
  | [] => 0
  | _ =>
    let a := jsSortBy (fun p q => decide (p < q)) nums
    let mid := a.length / 2
    if a.length % 2 = 1 then a.getD mid 0
    else (a.getD (mid - 1) 0 + a.getD mid 0) / 2

/-- A growing line cluster of the greedy pass (`LineAcc` in the source). -/
structure LineAcc where
  yRef : ℚ
  tokens : List Token
deriving DecidableEq, Repr

/-- The scan for the cluster with the smallest `|yMid - yRef|`: first index
attaining the strict minimum, exactly as the `dy < bestDy` loop. -/
def findBest (t : Token) : List LineAcc → Option (ℕ × ℚ)
  | [] => none
  | l :: ls =>
    let dy := |t.yMid - l.yRef|
    match findBest t ls with
    | none => some (0, dy)
    | some (i, dyr) => if dyr < dy then some (i + 1, dyr) else some (0, dy)

/-- In-place update of the array cell `lines[i]` (JavaScript mutation). -/
def updateAt (f : α → α) : ℕ → List α → List α
  | _, [] => []
  | 0, a :: l => f a :: l
  | n + 1, a :: l => a :: updateAt f n l

/-- `line.tokens.push(t)` followed by the incremental-mean `yRef` update. -/
def pushToken (t : Token) (acc : LineAcc) : LineAcc :=
  let newTokens := acc.tokens ++ [t]
  let n : ℚ := newTokens.length
  ⟨(acc.yRef * (n - 1) + t.yMid) / n, newTokens⟩

/-- One iteration of the greedy clustering loop. -/
def clusterStep (yTol : ℚ) (lines : List LineAcc) (t : Token) : List LineAcc :=
  match findBest t lines with
  | some (i, dy) =>
    if dy ≤ yTol then updateAt (pushToken t) i lines
    else lines ++ [⟨t.yMid, [t]⟩]
  | none => lines ++ [⟨t.yMid, [t]⟩]

/-- Comparator of the pre-clustering sort: `(a.yMid - b.yMid) || (a.xMin - b.xMin)`
is negative exactly on this strict lexicographic order. -/
def tokenBefore (a b : Token) : Bool :=
  decide (a.yMid < b.yMid) || (decide (a.yMid = b.yMid) && decide (a.xMin < b.xMin))

/-- `buildLinesFromTokens`. -/
def buildLinesFromTokens (tokens : List Token) : List BuiltLine :=
  match tokens with
  | [] => []
  | _ =>
    let medH0 := median ((tokens.map Token.h).filter (fun x => decide (0 < x)))
    let medH := if medH0 = 0 then 10 else medH0
    let yTol := max 6 (medH * (6 / 10))
    let sorted := jsSortBy tokenBefore tokens
    let clusters := sorted.foldl (clusterStep yTol) []
    ((jsSortBy (fun a b => decide (a.yRef < b.yRef)) clusters).map (fun line =>
        let lineTokens := jsSortBy (fun a b => decide (a.xMin < b.xMin)) line.tokens
        let text := jsTrim (collapseWs (joinSpace (lineTokens.map Token.text)))
        BuiltLine.mk text lineTokens)).filter
      (fun l => decide (0 < l.text.length))

/-! ### `lib/ocrPost.ts`: label cleaning and attachment -/

/-- Case-insensitive literal prefix: returns the rest on success. -/
def dropCIPrefix (w : String) (l : List Char) : Option (List Char) :=
  if w.data.isPrefixOf (l.map Char.toLower) then some (l.drop w.data.length)
  else none

/-- `t.replace(/\s+/g, "")`. -/
def stripWsAll (l : List Char) : List Char := l.filter (fun c => !jsIsWs c)

/-- `s.replace(/^(use|by)\s+/i, "")`: the alternation tries `use` first,
each branch requiring at least one following whitespace character. -/
def stripFillerWord (l : List Char) : List Char :=
  match dropCIPrefix "use" l with
  | some r =>
    if (r.takeWhile jsIsWs).isEmpty then
      match dropCIPrefix "by" l with
      | some r2 => if (r2.takeWhile jsIsWs).isEmpty then l else r2.dropWhile jsIsWs
      | none => l
    else r.dropWhile jsIsWs
  | none =>
    match dropCIPrefix "by" l with
    | some r2 => if (r2.takeWhile jsIsWs).isEmpty then l else r2.dropWhile jsIsWs
    | none => l

/-- `s.replace(/^\d+\s+/, "")`. -/
def stripLineNumber (l : List Char) : List Char :=
  if (l.takeWhile Char.isDigit).isEmpty then l
  else
    let r := l.dropWhile Char.isDigit
    if (r.takeWhile jsIsWs).isEmpty then l else r.dropWhile jsIsWs

/-- The class `[:\-–—]` of the leading-punctuation regex. -/
def leadPunct (c : Char) : Bool := c = ':' || c = '-' || c = '–' || c = '—'

/-- `s.replace(/^[:\-–—]+\s*/, "")`. -/
def stripLeadPunct (l : List Char) : List Char :=
  if (l.takeWhile leadPunct).isEmpty then l
  else (l.dropWhile leadPunct).dropWhile jsIsWs

/-- The class `[\s,:.\-–—/]` of the trailing-punctuation regex. -/
def trailPunct (c : Char) : Bool :=
  jsIsWs c || c = ',' || c = ':' || c = '.' || c = '-' || c = '–' || c = '—' || c = '/'

/-- `s.replace(/[\s,:.\-–—/]+$/g, "")`. -/
def stripTrailPunct (l : List Char) : List Char :=
  (l.reverse.dropWhile trailPunct).reverse

/-- `/^serving\s*size$/i`. -/
def isServingSizeLabel (l : List Char) : Bool :=
  match dropCIPrefix "serving" l with
  | some r => (r.dropWhile jsIsWs).map Char.toLower = "size".data
  | none => false

/-- `/^servings\s*per\s*(package|pack|container)$/i`. -/
def isServingsPerLabel (l : List Char) : Bool :=
  match dropCIPrefix "servings" l with
  | some r =>
    match dropCIPrefix "per" (r.dropWhile jsIsWs) with
    | some r2 =>
      let rest := (r2.dropWhile jsIsWs).map Char.toLower
      rest = "package".data || rest = "pack".data || rest = "container".data
    | none => false
  | none => false

/-- `cleanLabel` of `ocrPost.ts`. -/
def cleanLabel (label : String) : String :=
  let s1 := jsTrimL (collapseWs label).data
  let s2 := stripFillerWord s1
  let s3 := stripLineNumber s2
  let s4 := stripLeadPunct s3
  let s5 := jsTrimL (stripTrailPunct s4)
  if s5.any Char.isDigit then ""
  else if isServingSizeLabel s5 then "Serving Size"
  else if isServingsPerLabel s5 then "Servings per package"
  else ⟨s5⟩

/-- `^(\d+(?:\.\d+)?)(mg|g|kg|mcg|µg|ug|kj|kcal|cal|ml|%)$/i` on an already
whitespace-free token. -/
def isCombinedNumUnit (l : List Char) : Bool :=
  match matchNumber l with
  | some (_, _, rest) => isUnitChars rest
  | none => false

/-- The leftward label scan of `extractLabelFromTokens`, walking the
reversed token prefix.  The accumulator is built with `cons`, so it ends up
in left-to-right order — exactly `collected.reverse()` of the source. -/
def labelScan : List Token → Bool → List String → List String
  | [], _, acc => acc
  | tok :: rest, started, acc =>
    let raw := normalizeTokenTextForExtraction tok.text
    let t := jsTrim raw
    let compact := stripWsAll t.data
    let isNumOrValueUnit :=
      isNumberChars compact || isCombinedNumUnit compact || isUnitOnly ⟨compact⟩
    let isWord := isWordLikeToken t
    let isConn := isConnectorToken t
    if !started then
      if isWord then labelScan rest true (t :: acc)
      else labelScan rest false acc
    else
      if isNumOrValueUnit then acc
      else if isWord || isConn then labelScan rest true (t :: acc)
      else acc

/-- `extractLabelFromTokens`. -/
def extractLabelFromTokens (lineTokens : List Token) (startIdx : ℕ) : String :=
  let collected := labelScan (lineTokens.take startIdx).reverse false []
  cleanLabel (jsTrim (collapseWs (joinSpace collected)))

/-! ### `lib/ocrPost.ts`: per-line candidate scan (token mode) -/

/-- Numeric value of a token already known to match `^\d+(?:\.\d+)?$`. -/
def numValue (l : List Char) : ℚ :=
  match matchNumber l with
  | some (_, v, _) => v
  | none => 0

/-- The main `for` loop of `tokenCandidatesFromLine`: combined `"300mg"`
tokens, then split `"300" "mg"` pairs. -/
def tokenScan (originalLineText : String) (lineIndex : ℕ) :
    ℕ → List Token → List ValueUnitCandidate
  | _, [] => []
  | i, tok :: rest =>
    let tokN := normalizeTokenTextForExtraction tok.text
    let compact := stripWsAll tokN.data
    match matchNumber compact with
    | some (_, value, unitPart) =>
      if isUnitChars unitPart then
        -- combined "300mg": one candidate, `continue`
        ⟨tokN, value, normalizeUnit ⟨unitPart⟩, originalLineText, lineIndex, some i⟩ ::
          tokenScan originalLineText lineIndex (i + 1) rest
      else if unitPart.isEmpty then
        -- bare number: look at the next token for a bare unit
        match rest with
        | next :: _ =>
          let nextN := normalizeTokenTextForExtraction next.text
          let nextCompact := stripWsAll nextN.data
          if isUnitChars nextCompact then
            ⟨tokN ++ " " ++ nextN, value, normalizeUnit ⟨nextCompact⟩,
                originalLineText, lineIndex, some i⟩ ::
              tokenScan originalLineText lineIndex (i + 1) rest
          else tokenScan originalLineText lineIndex (i + 1) rest
        | [] => tokenScan originalLineText lineIndex (i + 1) rest
      else tokenScan originalLineText lineIndex (i + 1) rest
    | none => tokenScan originalLineText lineIndex (i + 1) rest

/-- Forward scan of the calories heuristic: first following bare number. -/
def caloriesNumberScan (originalLineText : String) (lineIndex : ℕ) :
    ℕ → List Token → Option ValueUnitCandidate
  | _, [] => none
  | j, tok :: rest =>
    let tt := stripWsAll (normalizeTokenTextForExtraction tok.text).data
    if isNumberChars tt then
      some ⟨⟨tt⟩, numValue tt, "", originalLineText, lineIndex, some j⟩
    else caloriesNumberScan originalLineText lineIndex (j + 1) rest

/-- `tokenCandidatesFromLine`. -/
def tokenCandidatesFromLine (originalLineText : String) (lineIndex : ℕ)
    (lineTokens : List Token) : List ValueUnitCandidate :=
  if isDailyValuesNoise originalLineText then []
  else if isHeaderNoise originalLineText then []
  else
    let candidates := tokenScan originalLineText lineIndex 0 lineTokens
    let normalizedLine := normalizeLineForExtraction originalLineText
    let hasCalLike := candidates.any (fun c => c.unit = "cal" || c.unit = "kcal")
    let withCalories :=
      if !hasCalLike && strIncludes (jsToLower normalizedLine) "calories" &&
          !strIncludes normalizedLine ":" then
        match lineTokens.findIdx? (fun t => jsToLower (jsTrim t.text) = "calories") with
        | some idxCalories =>
          match caloriesNumberScan originalLineText lineIndex (idxCalories + 1)
              (lineTokens.drop (idxCalories + 1)) with
          | some c => candidates ++ [c]
          | none => candidates
        | none => candidates
      else candidates
    dropPercentCandidates withCalories

/-! ### `lib/ocrPost.ts`: regex fallback mode and line splitting -/

/-- `fullText.split(/\r?\n/)`. -/
def splitLinesAux : List Char → List Char → List String
  | [], cur => [⟨cur.reverse⟩]
  | '\x0d' :: '\n' :: rest, cur => ⟨cur.reverse⟩ :: splitLinesAux rest []
  | '\n' :: rest, cur => ⟨cur.reverse⟩ :: splitLinesAux rest []
  | c :: rest, cur => splitLinesAux rest (c :: cur)

def splitLines (s : String) : List String := splitLinesAux s.data []

/-- One attempt of `/(\d+(?:\.\d+)?)\s*(mg|g|kg|mcg|µg|ug|kj|kcal|cal|ml|%)/i`
anchored at the head of `l`: number, optional whitespace, first matching
unit alternative.  Returns `(m[0], value, m[2], rest)`. -/
def tryMatchVU (l : List Char) : Option (List Char × ℚ × List Char × List Char) :=
  match matchNumber l with
  | some (numChars, v, r1) =>
    let wsChars := r1.takeWhile jsIsWs
    let r2 := r1.dropWhile jsIsWs
    match matchUnitPrefix r2 with
    | some (unitChars, after) => some (numChars ++ wsChars ++ unitChars, v, unitChars, after)
    | none => none
  | none => none

/-- The global `while ((m = re.exec(line)))` sweep.  On a failed attempt the
scan advances one character; a successful match resumes after its end
(`lastIndex`).  `fuel` only certifies termination. -/
def scanVUAux (originalLine : String) (lineIndex : ℕ) :
    ℕ → List Char → List ValueUnitCandidate
  | 0, _ => []
  | _ + 1, [] => []
  | fuel + 1, c :: rest =>
    match tryMatchVU (c :: rest) with
    | some (rawChars, v, unitChars, after) =>
      ⟨⟨rawChars⟩, v, normalizeUnit ⟨unitChars⟩, originalLine, lineIndex, none⟩ ::
        scanVUAux originalLine lineIndex fuel after
    | none => scanVUAux originalLine lineIndex fuel rest

def scanVU (originalLine : String) (lineIndex : ℕ) (l : List Char) :
    List ValueUnitCandidate :=
  scanVUAux originalLine lineIndex (l.length + 1) l

/-- First index (in characters) of `needle` inside `hay`
(JavaScript `indexOf`). -/
def firstIdxOf : List Char → List Char → Option ℕ
  | [], needle => if needle.isEmpty then some 0 else none
  | c :: rest, needle =>
    if needle.isPrefixOf (c :: rest) then some 0
    else (firstIdxOf rest needle).map (· + 1)

/-- First match of `/(\d+(?:\.\d+)?)/` anywhere in `l`. -/
def firstNumberMatch : List Char → Option (List Char × ℚ)
  | [] => none
  | c :: rest =>
    match matchNumber (c :: rest) with
    | some (numChars, v, _) => some (numChars, v)
    | none => firstNumberMatch rest

/-- The per-line body of the regex fallback loop of
`extractValueUnitCandidates`. -/
def fallbackLineCandidates (originalLine : String) (lineIndex : ℕ) :
    List ValueUnitCandidate :=
  if isDailyValuesNoise originalLine then []
  else if isHeaderNoise originalLine then []
  else
    let line := normalizeLineForExtraction originalLine
    let ms := scanVU originalLine lineIndex line.data
    let hasCalLike := ms.any (fun c => c.unit = "cal" || c.unit = "kcal")
    if !hasCalLike && strIncludes (jsToLower line) "calories" &&
        !strIncludes line ":" then
      let after :=
        match firstIdxOf (jsToLower line).data "calories".data with
        | some idx => line.data.drop (idx + "calories".length)
        | none => line.data
      match firstNumberMatch after with
      | some (numChars, v) =>
        ms ++ [⟨⟨numChars⟩, v, "", originalLine, lineIndex, none⟩]
      | none => ms
    else ms

/-- `extractValueUnitCandidates` (Step 3). -/
def extractValueUnitCandidates (ocr : OcrResultLike) :
    List String × List ValueUnitCandidate :=
  let tokens := ocr.items.filterMap tokenFromItem
  let builtLines := buildLinesFromTokens tokens
  let rawLines :=
    if builtLines.length > 0 then builtLines.map BuiltLine.text
    else ((splitLines ocr.fullText).map jsTrim).filter (fun s => s ≠ "")
  let lines := rawLines.filter (fun l => !isDailyValuesNoise l)
  if builtLines.length > 0 then
    (lines,
      (builtLines.enum.flatMap fun li =>
        if isDailyValuesNoise li.2.text then []
        else tokenCandidatesFromLine li.2.text li.1 li.2.tokens))
  else
    (lines,
      dropPercentCandidates
        (rawLines.enum.flatMap fun li => fallbackLineCandidates li.2 li.1))

/-- `/serving\s*size/i.test(line)` (search anywhere in the line). -/
def hasServingSize : List Char → Bool
  | [] => false
  | c :: rest =>
    (match dropCIPrefix "serving" (c :: rest) with
      | some r => "size".data.isPrefixOf ((r.dropWhile jsIsWs).map Char.toLower)
      | none => false) ||
    hasServingSize rest

/-- `extractLabeledValueUnitCandidates` (Step 4). -/
def extractLabeledValueUnitCandidates (ocr : OcrResultLike) :
    List String × List LabeledValueUnitCandidate :=
  let tokens := ocr.items.filterMap tokenFromItem
  let builtLines := buildLinesFromTokens tokens
  let rawLines :=
    if builtLines.length > 0 then builtLines.map BuiltLine.text
    else ((splitLines ocr.fullText).map jsTrim).filter (fun s => s ≠ "")
  let lines := rawLines.filter (fun l => !isDailyValuesNoise l)
  if builtLines.length = 0 then
    let step3 := extractValueUnitCandidates ocr
    (step3.1,
      step3.2.map fun c => ⟨c.raw, c.value, c.unit, c.line, c.lineIndex, c.tokenIndex, ""⟩)
  else
    let out := builtLines.enum.flatMap fun li =>
      if isDailyValuesNoise li.2.text then []
      else if isHeaderNoise li.2.text then []
      else
        (tokenCandidatesFromLine li.2.text li.1 li.2.tokens).map fun c =>
          let label0 :=
            match c.tokenIndex with
            | some startIdx => extractLabelFromTokens li.2.tokens startIdx
            | none => ""
          let label :=
            if c.unit = "g" && hasServingSize li.2.text.data then "Serving Size"
            else label0
          ⟨c.raw, c.value, c.unit, c.line, c.lineIndex, c.tokenIndex, label⟩
    (lines, dropPercentCandidatesL out)

/-! ### `lib/ocrPost.ts`: Step 5 — group by label, pick primary -/

/-- `normalizeLabelKey`. -/
def normalizeLabelKey (label : String) : String :=
  jsToLower (jsTrim (collapseWs label))

/-- `isNoiseLabel`. -/
def isNoiseLabel (label : String) : Bool :=
  let k := normalizeLabelKey label
  if k = "" then true
  else
    k = "nutrition facts" || k = "nutrition information" ||
    k = "amount per serving" || k = "servings per container" ||
    k = "servings per package" || strIncludes k "less than" ||
    strIncludes k "per 100" || strIncludes k "per serving" ||
    strIncludes k "avg. quantity" || strIncludes k "avg quantity" ||
    k.data.any Char.isDigit

/-- `unitRank`. -/
def unitRank (labelKey : String) (unit : String) : ℕ :=
  if labelKey = "calories" then
    if unit = "" then 0
    else if unit = "kcal" then 1
    else if unit = "cal" then 2
    else 9
  else if unit = "mg" then 0
  else if unit = "g" then 1
  else if unit = "kJ" || unit = "kj" then 2
  else if unit = "kcal" then 3
  else if unit = "cal" then 4
  else if unit = "ml" then 5
  else if unit = "" then 8
  else 9

/-- `candidateScore`: the ranking tuple `(lineIndex, unitRank, |value|)`. -/
def candidateScore (c : LabeledValueUnitCandidate) : ℕ × ℕ × ℚ :=
  (c.lineIndex, unitRank (normalizeLabelKey c.label) c.unit, |c.value|)

/-- The candidate comparator is negative exactly on the strict
lexicographic order of the score tuples. -/
def scoreBefore (a b : LabeledValueUnitCandidate) : Bool :=
  let sa := candidateScore a
  let sb := candidateScore b
  decide (sa.1 < sb.1) ||
    (decide (sa.1 = sb.1) &&
      (decide (sa.2.1 < sb.2.1) ||
        (decide (sa.2.1 = sb.2.1) && decide (sa.2.2 < sb.2.2))))

/-- The row comparator: `lineIndex` difference, ties by `localeCompare` of
the labels (embedded as the lexicographic order on strings, a fixed total
order). -/
def rowBefore (a b : LabelRow) : Bool :=
  decide (a.primary.lineIndex < b.primary.lineIndex) ||
    (decide (a.primary.lineIndex = b.primary.lineIndex) &&
      decide (a.label < b.label))

/-- The insertion-ordered grouping `Map` of `groupByLabelPickPrimary`:
an association list from normalized label key to
`(displayLabel, items in arrival order)`. -/
def groupInsert (groups : List (String × String × List LabeledValueUnitCandidate))
    (c : LabeledValueUnitCandidate) :
    List (String × String × List LabeledValueUnitCandidate) :=
  let key := normalizeLabelKey c.label
  if groups.any (fun g => g.1 = key) then
    groups.map (fun g => if g.1 = key then (g.1, g.2.1, g.2.2 ++ [c]) else g)
  else groups ++ [(key, c.label, [c])]

/-- `groupByLabelPickPrimary` (Step 5).  A group is never empty, so the
`[]` branch of the inner match is unreachable. -/
def groupByLabelPickPrimary (labeledCandidates : List LabeledValueUnitCandidate) :
    List LabelRow :=
  let filtered := ((labeledCandidates.filter (fun c => c.unit ≠ "%")).filter
      (fun c => c.label ≠ "" && jsTrim c.label ≠ "")).filter
    (fun c => !isNoiseLabel c.label)
  let groups := filtered.foldl groupInsert []
  let rows := groups.filterMap fun g =>
    match jsSortBy scoreBefore g.2.2 with
    | [] => none
    | p :: alts => some ⟨g.2.1, p, alts⟩
  jsSortBy rowBefore rows

/-! ### `lib/ocrPost.server.cjs`: nutrient-key matching -/

/-- `matchNutrientKey` of `ocrPost.server.cjs`: ordered prefix/substring
rules, `null` when nothing matches. -/
def matchNutrientKey (labelText : String) : Option String :=
  let s := jsToLower labelText
  if strStartsWith s "energy" then some "energy"
  else if strStartsWith s "protein" then some "protein"
  else if strStartsWith s "fat" then some "fat_total"
  else if strIncludes s "satur" then some "saturated"
  else if strStartsWith s "carbohydrate" || strStartsWith s "carbs" then some "carbohydrate"
  else if strIncludes s "sugars" then some "sugars"
  else if strIncludes s "fibre" || strIncludes s "fiber" then some "fibre"
  else if strIncludes s "sodium" then some "sodium"
  else none

/-! ### `app/index.tsx`: data model

`Confidence`, `NutrientKey` and `LabelData` are declared in
`lib/mockLabel.ts`, which only ships type declarations; their shapes are
fixed by the spec's data model (§3) and by every use in `app/index.tsx`. -/

inductive Confidence where
  | High
  | Med
  | Low
deriving DecidableEq, Repr

inductive NutrientKey where
  | energy_kj
  | energy_kcal
  | protein_g
  | carbs_g
  | fat_g
  | sugars_g
  | fibre_g
  | sodium_mg
deriving DecidableEq, Repr

structure NutrientRecord where
  value : ℚ
  unit : String
  confidence : Confidence
deriving DecidableEq, Repr

structure LabelData where
  basis : String
  servingSizeValue : ℚ
  servingSizeUnit : String
  nutrients : List (NutrientKey × NutrientRecord)
deriving DecidableEq, Repr

/-- Object-property assignment `nutrients[key] = record` (replace or
append). -/
def objSet (m : List (NutrientKey × NutrientRecord)) (k : NutrientKey)
    (v : NutrientRecord) : List (NutrientKey × NutrientRecord) :=
  if m.any (fun p => p.1 = k) then m.map (fun p => if p.1 = k then (k, v) else p)
  else m ++ [(k, v)]

/-- Object-property read `nutrients[key]` (`undefined` = `none`). -/
def objGet (m : List (NutrientKey × NutrientRecord)) (k : NutrientKey) :
    Option NutrientRecord :=
  (m.find? (fun p => p.1 = k)).map (fun p => p.2)

/-! ### `app/index.tsx`: server payload model

`serverToLabelData` receives the (untyped) JSON payload of the OCR route.
A JavaScript number that may be `NaN`/`undefined` is `Option ℚ`. -/

/-- One entry of `debug.parsedNutrients`. -/
structure ParsedEntry where
  perServe : Option ℚ
  per100g : Option ℚ
deriving DecidableEq, Repr

/-- `data.servingSize`. -/
structure ServingSizeIn where
  value : Option ℚ
  unit : String
deriving DecidableEq, Repr

/-- One entry of `debug.tokens` (only `text` is read). -/
structure DebugToken where
  text : String
deriving DecidableEq, Repr

/-- The fields of the payload that `serverToLabelData` reads. -/
structure ServerData where
  nutrients : Option (List (String × Option ℚ))
  parsedNutrients : Option (List (String × ParsedEntry))
  servingSize : Option ServingSizeIn
  debugTokens : Option (List DebugToken)
deriving DecidableEq, Repr

/-- Association-list read for the string-keyed payload objects. -/
def alistGet (m : List (String × α)) (k : String) : Option α :=
  (m.find? (fun p => p.1 = k)).map (fun p => p.2)

/-! ### `app/index.tsx`: `serverToLabelData` -/

def MIN_SERVING_SIZE_G : ℚ := 5

/-- `MAX_PER_SERVE` plausibility ceilings. -/
def MAX_PER_SERVE (k : NutrientKey) : Option ℚ :=
  match k with
  | .energy_kj => some 8000
  | .energy_kcal => some 2000
  | .protein_g => some 100
  | .fat_g => some 100
  | .carbs_g => some 150
  | .sugars_g => some 100
  | .fibre_g => some 60
  | .sodium_mg => some 5000

/-- `SERVER_KEY_MAP` in object-literal (iteration) order:
`(serverKey, key, unit)`. -/
def SERVER_KEY_MAP : List (String × NutrientKey × String) :=
  [("energy_kj", .energy_kj, "kJ"), ("energy_kcal", .energy_kcal, "kcal"),
   ("protein_g", .protein_g, "g"), ("fat_g", .fat_g, "g"),
   ("carbs_g", .carbs_g, "g"), ("sugars_g", .sugars_g, "g"),
   ("fibre_g", .fibre_g, "g"), ("sodium_mg", .sodium_mg, "mg")]

/-- `PARSED_PROMOTION_MAP` in object-literal (iteration) order:
`(parsedKey, key, unit)`. -/
def PARSED_PROMOTION_MAP : List (String × NutrientKey × String) :=
  [("protein", .protein_g, "g"), ("fat_total", .fat_g, "g"),
   ("carbohydrate", .carbs_g, "g"), ("sugars", .sugars_g, "g"),
   ("fibre", .fibre_g, "g"), ("energy_kj", .energy_kj, "kJ")]

/-- One iteration of the "flat nutrients (preferred)" loop. -/
def flatStep (flat : List (String × Option ℚ))
    (st : List (NutrientKey × NutrientRecord) × ℕ)
    (e : String × NutrientKey × String) :
    List (NutrientKey × NutrientRecord) × ℕ :=
  match alistGet flat e.1 with
  | some (some value) =>
    if (match MAX_PER_SERVE e.2.1 with | some mx => decide (value > mx) | none => false) then st
    else (objSet st.1 e.2.1 ⟨value, e.2.2, Confidence.Med⟩, st.2 + 1)
  | _ => st

/-- One iteration of the "promote from parsedNutrients (fallback)" loop,
including the inserted cross-validation safeguard.  The loop computes a
local `confidence` ("Med" when the per-serve and per-100g readings agree
within 0.3), but the record it stores uses the literal `"Low"`; the dead
computation is kept here as `deadConfidence`.  (JavaScript divides that
deviation by `entry.per100g` itself; at `per100g = 0` the quotient is not
finite and the `< 0.3` test fails, hence the explicit `p ≠ 0` guard.) -/
def parsedStep (parsed : List (String × ParsedEntry)) (servingValue : ℚ)
    (st : List (NutrientKey × NutrientRecord) × ℕ)
    (e : String × NutrientKey × String) :
    List (NutrientKey × NutrientRecord) × ℕ :=
  if (objGet st.1 e.2.1).isSome then st
  else
    match alistGet parsed e.1 with
    | some entry =>
      match entry.perServe with
      | some value =>
        let rejected :=
          match entry.per100g with
          | some per100g =>
            if servingValue ≥ MIN_SERVING_SIZE_G then
              decide (|value / servingValue * 100 - per100g| / max 1 per100g > 8 / 10)
            else false
          | none => false
        if rejected then st
        else
          let deadConfidence : Confidence :=
            match entry.per100g with
            | some p =>
              if servingValue ≥ 5 ∧ p ≠ 0 ∧ |value / servingValue * 100 - p| / p < 3 / 10 then
                Confidence.Med
              else Confidence.Low
            | none => Confidence.Low
          if (match MAX_PER_SERVE e.2.1 with | some mx => decide (value > mx) | none => false) then st
          else
            let _ := deadConfidence
            (objSet st.1 e.2.1 ⟨value, e.2.2, Confidence.Low⟩, st.2 + 1)
      | none => st
    | none => st

/-- `t?.text?.match(/^(\d+(?:\.\d+)?)\s*(g|ml)$/i)`: value and lowercased
unit on success. -/
def servingTokenMatch (t : DebugToken) : Option (ℚ × String) :=
  match matchNumber t.text.data with
  | some (_, v, r1) =>
    let r2 := (r1.dropWhile jsIsWs).map Char.toLower
    if r2 = "g".data then some (v, "g")
    else if r2 = "ml".data then some (v, "ml")
    else none
  | none => none

/-- `serverToLabelData` of `app/index.tsx`. -/
def serverToLabelData (data : ServerData) : Option LabelData :=
  if data.nutrients.isNone ∧ data.parsedNutrients.isNone then none
  else
    let servingValue0 : Option ℚ := data.servingSize.bind ServingSizeIn.value
    let servingUnit : String :=
      if (data.servingSize.map ServingSizeIn.unit) = some "ml" then "ml" else "g"
    -- "If missing/implausible, keep as sentinel (UI hides <5g)"
    let servingValue1 : ℚ :=
      match servingValue0 with
      | some v => if v < MIN_SERVING_SIZE_G then 1 else v
      | none => 1
    let st1 :=
      match data.nutrients with
      | some flat => SERVER_KEY_MAP.foldl (flatStep flat) ([], 0)
      | none => ([], 0)
    let st2 :=
      match data.parsedNutrients with
      | some parsed => PARSED_PROMOTION_MAP.foldl (parsedStep parsed servingValue1) st1
      | none => st1
    -- "Promote serving size from OCR tokens (explicit only)"
    let promoted : Option (ℚ × String) :=
      match data.debugTokens with
      | some tokens =>
        tokens.findSome? fun t =>
          match servingTokenMatch t with
          | some (v, u) => if v ≥ MIN_SERVING_SIZE_G then some (v, u) else none
          | none => none
      | none => none
    let servingValue2 := match promoted with | some p => p.1 | none => servingValue1
    let servingUnit2 := match promoted with | some p => p.2 | none => servingUnit
    if st2.2 = 0 then none
    else
      -- the `!Number.isFinite(servingValue)` reload never fires:
      -- `servingValue` is a finite number on every path to this point
      let servingValue3 := if servingValue2 < MIN_SERVING_SIZE_G then 1 else servingValue2
      some ⟨"per_serve", servingValue3, servingUnit2, st2.1⟩

/-- Read one nutrient record out of an optional result. -/
def resultNutrient (r : Option LabelData) (k : NutrientKey) : Option NutrientRecord :=
  r.bind fun ld => objGet ld.nutrients k

/-! ### Derived orders and policies used by the statements -/

/-- Non-strict lexicographic order on the ranking tuples
`(lineIndex, unitRank, |value|)` of two candidates. -/
def scoreLe (a b : LabeledValueUnitCandidate) : Prop :=
  (candidateScore a).1 < (candidateScore b).1 ∨
    ((candidateScore a).1 = (candidateScore b).1 ∧
      ((candidateScore a).2.1 < (candidateScore b).2.1 ∨
        ((candidateScore a).2.1 = (candidateScore b).2.1 ∧
          (candidateScore a).2.2 ≤ (candidateScore b).2.2)))

/-- Non-strict row order: ascending `primary.lineIndex`, ties broken by the
label string order. -/
def rowLe (a b : LabelRow) : Prop :=
  a.primary.lineIndex < b.primary.lineIndex ∨
    (a.primary.lineIndex = b.primary.lineIndex ∧ a.label ≤ b.label)

/-- The serving-size sentinel policy of `serverToLabelData`: a missing,
non-finite or below-5 reading becomes the sentinel `1`, anything else is
kept. -/
def servingSentinel (d : ServerData) : ℚ :=
  match d.servingSize with
  | some s =>
    match s.value with
    | some v => if v < MIN_SERVING_SIZE_G then 1 else v
    | none => 1
  | none => 1

/-- All tokens held by a cluster list, in cluster order. -/
def clustersTokens (cs : List LineAcc) : List Token :=
  (cs.map LineAcc.tokens).flatten

/-! ## Generic facts about the stable-sort embedding -/

theorem mem_insertBy {lt : α → α → Bool} {a x : α} :
    ∀ {l : List α}, x ∈ insertBy lt a l → x = a ∨ x ∈ l := by
  intro l
  induction l with
  | nil => simp [insertBy]
  | cons b bs ih =>
    simp only [insertBy]
    split
    · intro h
      rcases List.mem_cons.mp h with h | h
      · exact Or.inl h
      · exact Or.inr h
    · intro h
      rcases List.mem_cons.mp h with h | h
      · exact Or.inr (List.mem_cons.mpr (Or.inl h))
      · rcases ih h with h | h
        · exact Or.inl h
        · exact Or.inr (List.mem_cons.mpr (Or.inr h))

theorem insertBy_perm (lt : α → α → Bool) (a : α) :
    ∀ l : List α, (insertBy lt a l).Perm (a :: l) := by
  intro l
  induction l with
  | nil => simp [insertBy]
  | cons b bs ih =>
    simp only [insertBy]
    split
    · exact List.Perm.refl _
    · exact (ih.cons b).trans (List.Perm.swap a b bs)

theorem foldl_insertBy_perm (lt : α → α → Bool) :
    ∀ (l acc : List α),
      (l.foldl (fun acc x => insertBy lt x acc) acc).Perm (acc ++ l) := by
  intro l
  induction l with
  | nil => intro acc; simp
  | cons a as ih =>
    intro acc
    exact (ih (insertBy lt a acc)).trans
      (((insertBy_perm lt a acc).append_right as).trans List.perm_middle.symm)

theorem jsSortBy_perm (lt : α → α → Bool) (l : List α) :
    (jsSortBy lt l).Perm l := by
  simpa using foldl_insertBy_perm lt l []

theorem insertBy_pairwise {lt : α → α → Bool}
    (htrans : ∀ a b c, lt a b = true → lt b c = true → lt a c = true)
    (hasym : ∀ a b, lt a b = true → lt b a = false) (a : α) :
    ∀ {l : List α}, List.Pairwise (fun x y => lt y x = false) l →
      List.Pairwise (fun x y => lt y x = false) (insertBy lt a l) := by
  intro l
  induction l with
  | nil => intro _; simp [insertBy]
  | cons b bs ih =>
    intro h
    rcases List.pairwise_cons.mp h with ⟨hb, hbs⟩
    simp only [insertBy]
    split
    case isTrue hab =>
      refine List.pairwise_cons.mpr ⟨?_, h⟩
      intro c hc
      rcases List.mem_cons.mp hc with rfl | hc
      · exact hasym a c hab
      · -- `lt c a` would give `lt c b` by transitivity, against `hb c`
        cases hca : lt c a with
        | false => rfl
        | true =>
          have hcb := htrans c a b hca hab
          have hfalse := hb c hc
          rw [hcb] at hfalse
          exact hfalse
    case isFalse hab =>
      refine List.pairwise_cons.mpr ⟨?_, ih hbs⟩
      intro c hc
      rcases mem_insertBy hc with rfl | hc
      · exact Bool.eq_false_iff.mpr hab
      · exact hb c hc

theorem jsSortBy_pairwise {lt : α → α → Bool}
    (htrans : ∀ a b c, lt a b = true → lt b c = true → lt a c = true)
    (hasym : ∀ a b, lt a b = true → lt b a = false) (l : List α) :
    List.Pairwise (fun x y => lt y x = false) (jsSortBy lt l) := by
  suffices h : ∀ (l acc : List α),
      List.Pairwise (fun x y => lt y x = false) acc →
      List.Pairwise (fun x y => lt y x = false)
        (l.foldl (fun acc x => insertBy lt x acc) acc) by
    exact h l [] (by simp)
  intro l
  induction l with
  | nil => intro acc h; exact h
  | cons a as ih => intro acc h; exact ih _ (insertBy_pairwise htrans hasym a h)

/-! ## Properties of the candidate and row comparators -/

theorem scoreBefore_trans (a b c : LabeledValueUnitCandidate)
    (h₁ : scoreBefore a b = true) (h₂ : scoreBefore b c = true) :
    scoreBefore a c = true := by
  simp only [scoreBefore, Bool.or_eq_true, Bool.and_eq_true, decide_eq_true_eq] at *
  rcases h₁ with h₁ | ⟨e₁, h₁ | ⟨e₁', h₁⟩⟩ <;>
    rcases h₂ with h₂ | ⟨e₂, h₂ | ⟨e₂', h₂⟩⟩
  · exact Or.inl (h₁.trans h₂)
  · exact Or.inl (e₂ ▸ h₁)
  · exact Or.inl (e₂ ▸ h₁)
  · exact Or.inl (e₁ ▸ h₂)
  · exact Or.inr ⟨e₁.trans e₂, Or.inl (h₁.trans h₂)⟩
  · exact Or.inr ⟨e₁.trans e₂, Or.inl (e₂' ▸ h₁)⟩
  · exact Or.inl (e₁ ▸ h₂)
  · exact Or.inr ⟨e₁.trans e₂, Or.inl (e₁' ▸ h₂)⟩
  · exact Or.inr ⟨e₁.trans e₂, Or.inr ⟨e₁'.trans e₂', h₁.trans h₂⟩⟩

theorem scoreBefore_asym (a b : LabeledValueUnitCandidate)
    (h : scoreBefore a b = true) : scoreBefore b a = false := by
  simp only [scoreBefore, Bool.or_eq_true, Bool.and_eq_true, decide_eq_true_eq,
    Bool.or_eq_false_iff, Bool.and_eq_false_iff, decide_eq_false_iff_not] at *
  rcases h with h | ⟨e, h | ⟨e', h⟩⟩
  · exact ⟨not_lt_of_gt h, Or.inl fun heq => absurd (heq ▸ h) (lt_irrefl _)⟩
  · refine ⟨fun hlt => absurd (e ▸ hlt) (lt_irrefl _), Or.inr ⟨not_lt_of_gt h, ?_⟩⟩
    exact Or.inl fun heq => absurd (heq ▸ h) (lt_irrefl _)
  · refine ⟨fun hlt => absurd (e ▸ hlt) (lt_irrefl _),
      Or.inr ⟨fun hlt => absurd (e' ▸ hlt) (lt_irrefl _),
        Or.inr (not_lt_of_gt h)⟩⟩

theorem scoreBefore_false_iff (a b : LabeledValueUnitCandidate) :
    scoreBefore b a = false ↔ scoreLe a b := by
  simp only [scoreBefore, scoreLe, Bool.or_eq_false_iff, Bool.and_eq_false_iff,
    decide_eq_false_iff_not]
  constructor
  · rintro ⟨h₁, h₂⟩
    rcases lt_trichotomy (candidateScore a).1 (candidateScore b).1 with hlt | heq | hgt
    · exact Or.inl hlt
    · refine Or.inr ⟨heq, ?_⟩
      rcases h₂ with h₂ | ⟨h₃, h₄⟩
      · exact absurd heq.symm h₂
      rcases lt_trichotomy (candidateScore a).2.1 (candidateScore b).2.1 with h | h | h
      · exact Or.inl h
      · refine Or.inr ⟨h, ?_⟩
        rcases h₄ with h₄ | h₄
        · exact absurd h.symm h₄
        · exact le_of_not_lt h₄
      · exact absurd h h₃
    · exact absurd hgt h₁
  · rintro (h | ⟨e, h | ⟨e', h⟩⟩)
    · exact ⟨fun hh => absurd (hh.trans h) (lt_irrefl _),
        Or.inl fun heq => absurd (heq ▸ h) (lt_irrefl _)⟩
    · exact ⟨fun hh => absurd (e ▸ hh) (lt_irrefl _),
        Or.inr ⟨fun hh => absurd (hh.trans h) (lt_irrefl _),
          Or.inl fun heq => absurd (heq ▸ h) (lt_irrefl _)⟩⟩
    · exact ⟨fun hh => absurd (e ▸ hh) (lt_irrefl _),
        Or.inr ⟨fun hh => absurd (e' ▸ hh) (lt_irrefl _),
          Or.inr (not_lt_of_le h)⟩⟩

theorem scoreLe_refl (a : LabeledValueUnitCandidate) : scoreLe a a :=
  Or.inr ⟨rfl, Or.inr ⟨rfl, le_refl _⟩⟩

theorem rowBefore_trans (a b c : LabelRow)
    (h₁ : rowBefore a b = true) (h₂ : rowBefore b c = true) :
    rowBefore a c = true := by
  simp only [rowBefore, Bool.or_eq_true, Bool.and_eq_true, decide_eq_true_eq] at *
  rcases h₁ with h₁ | ⟨e₁, h₁⟩ <;> rcases h₂ with h₂ | ⟨e₂, h₂⟩
  · exact Or.inl (h₁.trans h₂)
  · exact Or.inl (e₂ ▸ h₁)
  · exact Or.inl (e₁ ▸ h₂)
  · exact Or.inr ⟨e₁.trans e₂, h₁.trans h₂⟩

theorem rowBefore_asym (a b : LabelRow)
    (h : rowBefore a b = true) : rowBefore b a = false := by
  simp only [rowBefore, Bool.or_eq_true, Bool.and_eq_true, decide_eq_true_eq,
    Bool.or_eq_false_iff, Bool.and_eq_false_iff, decide_eq_false_iff_not] at *
  rcases h with h | ⟨e, h⟩
  · exact ⟨not_lt_of_gt h, Or.inl fun heq => absurd (heq ▸ h) (lt_irrefl _)⟩
  · exact ⟨fun hlt => absurd (e ▸ hlt) (lt_irrefl _),
      Or.inr (not_lt_of_gt h)⟩

theorem rowBefore_false_iff (a b : LabelRow) :
    rowBefore b a = false ↔ rowLe a b := by
  simp only [rowBefore, rowLe, Bool.or_eq_false_iff, Bool.and_eq_false_iff,
    decide_eq_false_iff_not]
  constructor
  · rintro ⟨h₁, h₂⟩
    rcases lt_trichotomy a.primary.lineIndex b.primary.lineIndex with hlt | heq | hgt
    · exact Or.inl hlt
    · refine Or.inr ⟨heq, ?_⟩
      rcases h₂ with h₂ | h₂
      · exact absurd heq.symm h₂
      · exact le_of_not_lt h₂
    · exact absurd hgt h₁
  · rintro (h | ⟨e, h⟩)
    · exact ⟨fun hh => absurd (hh.trans h) (lt_irrefl _),
        Or.inl fun heq => absurd (heq ▸ h) (lt_irrefl _)⟩
    · exact ⟨fun hh => absurd (e ▸ hh) (lt_irrefl _), Or.inr (not_lt_of_le h)⟩

/-! ## Claim C4 — primary selection is the minimum of the ranking tuple -/

/-- **C4.**  For every list of labeled candidates and every `LabelRow`
returned by `groupByLabelPickPrimary`, the row's `primary` is a minimal
element of the row's candidate group (`primary :: alternates`) under the
ascending lexicographic tuple `(lineIndex, unitRank(labelKey, unit), |value|)`
(`candidateScore`, with `unitRank`'s fixed priority table); grouping is a
pure function, so re-running it on the same candidate set yields the same
primary. -/
theorem groupPrimary_minimal (cands : List LabeledValueUnitCandidate)
    (row : LabelRow) (hrow : row ∈ groupByLabelPickPrimary cands) :
    ∀ c ∈ row.primary :: row.alternates, scoreLe row.primary c := by
  intro c hc
  simp only [groupByLabelPickPrimary] at hrow
  have hrow2 := (jsSortBy_perm rowBefore _).mem_iff.mp hrow
  rcases List.mem_filterMap.mp hrow2 with ⟨g, _, hg⟩
  rcases hs : jsSortBy scoreBefore g.2.2 with _ | ⟨p, alts⟩
  · rw [hs] at hg; cases hg
  · rw [hs] at hg
    cases hg
    have hpw := jsSortBy_pairwise scoreBefore_trans scoreBefore_asym g.2.2
    rw [hs] at hpw
    rcases List.mem_cons.mp hc with rfl | hc
    · exact scoreLe_refl _
    · exact (scoreBefore_false_iff _ _).mp ((List.pairwise_cons.mp hpw).1 c hc)

/-- Closed instance of C4: for a duplicate "Sodium" reading the `mg`
candidate on the earlier line is ranked below the `g` duplicate. -/
theorem groupPrimary_minimal_witness :
    scoreLe
      (LabelRow.mk "Sodium"
        ⟨"300mg", 300, "mg", "Sodium 300mg 2 g", 0, none, "Sodium"⟩
        [⟨"2 g", 2, "g", "Sodium 300mg 2 g", 0, none, "Sodium"⟩]).primary
      ⟨"2 g", 2, "g", "Sodium 300mg 2 g", 0, none, "Sodium"⟩ :=
  groupPrimary_minimal
    [⟨"300mg", 300, "mg", "Sodium 300mg 2 g", 0, none, "Sodium"⟩,
     ⟨"2 g", 2, "g", "Sodium 300mg 2 g", 0, none, "Sodium"⟩]
    (LabelRow.mk "Sodium"
      ⟨"300mg", 300, "mg", "Sodium 300mg 2 g", 0, none, "Sodium"⟩
      [⟨"2 g", 2, "g", "Sodium 300mg 2 g", 0, none, "Sodium"⟩])
    (by decide)
    ⟨"2 g", 2, "g", "Sodium 300mg 2 g", 0, none, "Sodium"⟩
    (by decide)

/-! ## Claim C10 — output rows are sorted -/

/-- **C10.**  The `LabelRow` array returned by `groupByLabelPickPrimary`
is sorted: ascending `primary.lineIndex`, ties broken by the (fixed, total)
string order on the row labels, so the row order is deterministic and
follows top-to-bottom reading order. -/
theorem groupRows_sorted (cands : List LabeledValueUnitCandidate) :
    List.Pairwise rowLe (groupByLabelPickPrimary cands) := by
  simp only [groupByLabelPickPrimary]
  exact (jsSortBy_pairwise rowBefore_trans rowBefore_asym _).imp
    fun h => (rowBefore_false_iff _ _).mp h

/-! ## Claim C9 — nutrient-key matching rules -/

/-- **C9 (amended).**  `matchNutrientKey` applies its prefix/substring
rules in source order with the first match winning, but the `fat` rule is a
plain prefix test with no "saturated" exclusion: a label maps to
`fat_total` exactly when its lowercase form starts with `"fat"` and with
neither `"energy"` nor `"protein"` — even if it also contains
`"saturated"`.  Labels containing `"satur"` that do not fall to an earlier
rule map to the separate `"saturated"` key. -/
theorem matchNutrientKey_fat_total (s : String) :
    matchNutrientKey s = some "fat_total" ↔
      (¬ strStartsWith (jsToLower s) "energy" = true ∧
       ¬ strStartsWith (jsToLower s) "protein" = true ∧
       strStartsWith (jsToLower s) "fat" = true) := by
  simp only [matchNutrientKey]
  split_ifs <;> simp_all

/-- The claim's "in particular" clause is false on the code: a label that
contains "saturated" but starts with "fat" is mapped to `fat_total`. -/
theorem matchNutrientKey_saturated_counterexample :
    matchNutrientKey "fat, saturated" = some "fat_total" ∧
      strIncludes (jsToLower "fat, saturated") "saturated" = true := by
  constructor <;> decide

/-! ## Membership facts about candidate extraction -/

theorem mem_dropPercent {c : ValueUnitCandidate} {l : List ValueUnitCandidate}
    (h : c ∈ dropPercentCandidates l) :
    c ∈ l ∧ c.unit ≠ "%" ∧ strIncludes c.raw "%" = false := by
  have h' := List.mem_filter.mp h
  refine ⟨h'.1, ?_, ?_⟩
  · have := h'.2
    simp only [Bool.and_eq_true, decide_eq_true_eq, Bool.not_eq_true'] at this
    exact this.1
  · have := h'.2
    simp only [Bool.and_eq_true, decide_eq_true_eq, Bool.not_eq_true'] at this
    exact this.2

theorem mem_dropPercentL {c : LabeledValueUnitCandidate}
    {l : List LabeledValueUnitCandidate} (h : c ∈ dropPercentCandidatesL l) :
    c ∈ l ∧ c.unit ≠ "%" ∧ strIncludes c.raw "%" = false := by
  have h' := List.mem_filter.mp h
  refine ⟨h'.1, ?_, ?_⟩
  · have := h'.2
    simp only [Bool.and_eq_true, decide_eq_true_eq, Bool.not_eq_true'] at this
    exact this.1
  · have := h'.2
    simp only [Bool.and_eq_true, decide_eq_true_eq, Bool.not_eq_true'] at this
    exact this.2

theorem tokenScan_line {s : String} {li : ℕ} :
    ∀ {j : ℕ} {toks : List Token} {c : ValueUnitCandidate},
      c ∈ tokenScan s li j toks → c.line = s := by
  intro j toks
  induction toks generalizing j with
  | nil => intro c hc; simp [tokenScan] at hc
  | cons tok rest ih =>
    intro c hc
    simp only [tokenScan] at hc
    repeat' split at hc
    all_goals
      first
      | exact ih hc
      | (rcases List.mem_cons.mp hc with rfl | hc <;> first | rfl | exact ih hc)

theorem caloriesNumberScan_line {s : String} {li : ℕ} :
    ∀ {j : ℕ} {toks : List Token} {c : ValueUnitCandidate},
      caloriesNumberScan s li j toks = some c → c.line = s := by
  intro j toks
  induction toks generalizing j with
  | nil => intro c hc; simp [caloriesNumberScan] at hc
  | cons tok rest ih =>
    intro c hc
    simp only [caloriesNumberScan] at hc
    split at hc
    · cases hc; rfl
    · exact ih hc

theorem tokenCandidatesFromLine_mem {s : String} {li : ℕ} {toks : List Token}
    {c : ValueUnitCandidate} (h : c ∈ tokenCandidatesFromLine s li toks) :
    isDailyValuesNoise s = false ∧ isHeaderNoise s = false ∧ c.line = s ∧
      c.unit ≠ "%" ∧ strIncludes c.raw "%" = false := by
  simp only [tokenCandidatesFromLine] at h
  split at h
  · simp at h
  · split at h
    · simp at h
    · rcases mem_dropPercent h with ⟨hmem, hunit, hraw⟩
      refine ⟨by simp_all, by simp_all, ?_, hunit, hraw⟩
      split at hmem
      · split at hmem
        · split at hmem
          · rcases List.mem_append.mp hmem with hmem | hmem
            · exact tokenScan_line hmem
            · rw [List.mem_singleton.mp hmem]
              exact caloriesNumberScan_line (by assumption)
          · exact tokenScan_line hmem
        · exact tokenScan_line hmem
      · exact tokenScan_line hmem

theorem scanVUAux_line {s : String} {li : ℕ} :
    ∀ {fuel : ℕ} {l : List Char} {c : ValueUnitCandidate},
      c ∈ scanVUAux s li fuel l → c.line = s := by
  intro fuel
  induction fuel with
  | zero => intro l c hc; simp [scanVUAux] at hc
  | succ fuel ih =>
    intro l c hc
    cases l with
    | nil => simp [scanVUAux] at hc
    | cons ch rest =>
      simp only [scanVUAux] at hc
      split at hc
      · rcases List.mem_cons.mp hc with rfl | hc
        · rfl
        · exact ih hc
      · exact ih hc

theorem fallbackLineCandidates_mem {s : String} {li : ℕ} {c : ValueUnitCandidate}
    (h : c ∈ fallbackLineCandidates s li) :
    isDailyValuesNoise s = false ∧ isHeaderNoise s = false ∧ c.line = s := by
  simp only [fallbackLineCandidates] at h
  split at h
  · simp at h
  · split at h
    · simp at h
    · refine ⟨by simp_all, by simp_all, ?_⟩
      split at h
      · split at h
        · rcases List.mem_append.mp h with h | h
          · exact scanVUAux_line h
          · rw [List.mem_singleton.mp h]
        · exact scanVUAux_line h
      · exact scanVUAux_line h

/-- Every candidate returned by Step 3 avoids both noise predicates and
carries no percent unit or raw text. -/
theorem extractVUC_props (ocr : OcrResultLike) {c : ValueUnitCandidate}
    (hc : c ∈ (extractValueUnitCandidates ocr).2) :
    isDailyValuesNoise c.line = false ∧ isHeaderNoise c.line = false ∧
      c.unit ≠ "%" ∧ strIncludes c.raw "%" = false := by
  simp only [extractValueUnitCandidates] at hc
  split at hc
  · simp only at hc
    rcases List.mem_flatMap.mp hc with ⟨li, _, hci⟩
    split at hci
    · simp at hci
    · rcases tokenCandidatesFromLine_mem hci with ⟨hdv, hh, hline, hu, hr⟩
      exact ⟨hline ▸ hdv, hline ▸ hh, hu, hr⟩
  · simp only at hc
    rcases mem_dropPercent hc with ⟨hmem, hu, hr⟩
    rcases List.mem_flatMap.mp hmem with ⟨li, _, hci⟩
    rcases fallbackLineCandidates_mem hci with ⟨hdv, hh, hline⟩
    exact ⟨hline ▸ hdv, hline ▸ hh, hu, hr⟩

/-- The `lines` output of Step 3 never contains a daily-value noise line. -/
theorem extractVUC_lines (ocr : OcrResultLike) {l : String}
    (hl : l ∈ (extractValueUnitCandidates ocr).1) :
    isDailyValuesNoise l = false := by
  simp only [extractValueUnitCandidates] at hl
  split at hl <;>
    simpa using (List.mem_filter.mp hl).2

/-- `cleanLabel` never lets a digit through: a label in which a digit
survives cleaning is replaced by the empty string, and the two forced
canonical labels are digit-free. -/
theorem cleanLabel_no_digit (s : String) :
    ∀ ch ∈ (cleanLabel s).data, ch.isDigit = false := by
  intro ch hch
  simp only [cleanLabel] at hch
  split at hch
  · simp at hch
  · split at hch
    · revert hch
      have : ∀ c ∈ ("Serving Size" : String).data, c.isDigit = false := by decide
      exact this ch
    · split at hch
      · revert hch
        have : ∀ c ∈ ("Servings per package" : String).data, c.isDigit = false := by
          decide
        exact this ch
      · rename_i hnod _ _
        rw [List.any_eq_true] at hnod
        push_neg at hnod
        simpa using hnod ch hch

/-- `extractLabelFromTokens` only ever returns a cleaned label. -/
theorem extractLabelFromTokens_no_digit (lineTokens : List Token) (startIdx : ℕ) :
    ∀ ch ∈ (extractLabelFromTokens lineTokens startIdx).data, ch.isDigit = false := by
  intro ch hch
  simp only [extractLabelFromTokens] at hch
  exact cleanLabel_no_digit _ ch hch

/-- Every candidate returned by Step 4 avoids both noise predicates,
carries no percent unit/raw text, and has a digit-free label. -/
theorem extractLabeled_props (ocr : OcrResultLike) {c : LabeledValueUnitCandidate}
    (hc : c ∈ (extractLabeledValueUnitCandidates ocr).2) :
    isDailyValuesNoise c.line = false ∧ isHeaderNoise c.line = false ∧
      c.unit ≠ "%" ∧ strIncludes c.raw "%" = false ∧
      (∀ ch ∈ c.label.data, ch.isDigit = false) := by
  simp only [extractLabeledValueUnitCandidates] at hc
  split at hc
  · -- regex fallback: Step 3 candidates with an empty label
    simp only at hc
    rcases List.mem_map.mp hc with ⟨c0, hc0, rfl⟩
    rcases extractVUC_props ocr hc0 with ⟨hdv, hh, hu, hr⟩
    exact ⟨hdv, hh, hu, hr, by simp⟩
  · -- token mode
    simp only at hc
    rcases mem_dropPercentL hc with ⟨hmem, hu, hr⟩
    rcases List.mem_flatMap.mp hmem with ⟨li, _, hci⟩
    split at hci
    · simp at hci
    · split at hci
      · simp at hci
      · rcases List.mem_map.mp hci with ⟨c0, hc0, rfl⟩
        rcases tokenCandidatesFromLine_mem hc0 with ⟨hdv, hh, hline, _, _⟩
        refine ⟨?_, ?_, hu, hr, ?_⟩
        · show isDailyValuesNoise c0.line = false
          rw [hline]; exact hdv
        · show isHeaderNoise c0.line = false
          rw [hline]; exact hh
        · show ∀ ch ∈ (if c0.unit = "g" && hasServingSize li.2.text.data
              then "Serving Size"
              else match c0.tokenIndex with
                | some startIdx => extractLabelFromTokens li.2.tokens startIdx
                | none => "").data, ch.isDigit = false
          split
          · decide
          · split
            · exact extractLabelFromTokens_no_digit _ _
            · simp

/-- The `lines` output of Step 4 never contains a daily-value noise line. -/
theorem extractLabeled_lines (ocr : OcrResultLike) {l : String}
    (hl : l ∈ (extractLabeledValueUnitCandidates ocr).1) :
    isDailyValuesNoise l = false := by
  simp only [extractLabeledValueUnitCandidates] at hl
  split at hl
  · simp only [extractValueUnitCandidates] at hl
    split at hl <;> simpa using (List.mem_filter.mp hl).2
  · simpa using (List.mem_filter.mp hl).2

/-! ## Claim C5 — no percent candidate survives extraction -/

/-- **C5.**  For every OCR input, no candidate in the output of
`extractValueUnitCandidates` or `extractLabeledValueUnitCandidates` has
unit `"%"` or a `raw` string containing `"%"`. -/
theorem noPercentCandidates (ocr : OcrResultLike) :
    (∀ c ∈ (extractValueUnitCandidates ocr).2,
        c.unit ≠ "%" ∧ strIncludes c.raw "%" = false) ∧
    (∀ c ∈ (extractLabeledValueUnitCandidates ocr).2,
        c.unit ≠ "%" ∧ strIncludes c.raw "%" = false) := by
  constructor
  · intro c hc
    rcases extractVUC_props ocr hc with ⟨_, _, hu, hr⟩
    exact ⟨hu, hr⟩
  · intro c hc
    rcases extractLabeled_props ocr hc with ⟨_, _, hu, hr, _⟩
    exact ⟨hu, hr⟩

/-- Closed instance of C5 at the `"Protein 5 g"` fallback candidate. -/
theorem noPercentCandidates_witness :
    (⟨"5 g", 5, "g", "Protein 5 g", 0, none⟩ : ValueUnitCandidate).unit ≠ "%" ∧
      strIncludes (⟨"5 g", 5, "g", "Protein 5 g", 0, none⟩ : ValueUnitCandidate).raw "%"
        = false :=
  (noPercentCandidates ⟨"Protein 5 g", []⟩).1
    ⟨"5 g", 5, "g", "Protein 5 g", 0, none⟩ (by decide)

/-! ## Claim C6 — labels never contain digits -/

/-- **C6.**  Every `LabeledValueUnitCandidate` returned by
`extractLabeledValueUnitCandidates` has a label containing no digit:
labels in which a digit survives cleaning become `""`, and the forced
`"Serving Size"` override label is digit-free. -/
theorem labelsDigitFree (ocr : OcrResultLike) {c : LabeledValueUnitCandidate}
    (hc : c ∈ (extractLabeledValueUnitCandidates ocr).2) :
    ∀ ch ∈ c.label.data, ch.isDigit = false :=
  (extractLabeled_props ocr hc).2.2.2.2

/-- Closed instance of C6 at the `"Protein 5 g"` fallback candidate. -/
theorem labelsDigitFree_witness :
    ((⟨"5 g", 5, "g", "Protein 5 g", 0, none, ""⟩ :
        LabeledValueUnitCandidate).label.data.all (fun ch => !ch.isDigit)) = true := by
  have h := labelsDigitFree ⟨"Protein 5 g", []⟩
    (c := ⟨"5 g", 5, "g", "Protein 5 g", 0, none, ""⟩) (by decide)
  rw [List.all_eq_true]
  intro ch hch
  simpa using h ch hch

/-! ## Claim C3 — noise-line exclusion -/

/-- **C3 (amended).**  Lines flagged by the daily-value predicate are
absent from the `lines` output of both extractors, and no candidate in
either output originates from a line satisfying either noise predicate.
(The daily-value predicate of the code does not cover `"less than"` lines,
and header-noise lines are removed from candidate extraction but not from
the `lines` array.) -/
theorem noiseLineExclusion (ocr : OcrResultLike) :
    (∀ l ∈ (extractValueUnitCandidates ocr).1, isDailyValuesNoise l = false) ∧
    (∀ c ∈ (extractValueUnitCandidates ocr).2,
        isDailyValuesNoise c.line = false ∧ isHeaderNoise c.line = false) ∧
    (∀ l ∈ (extractLabeledValueUnitCandidates ocr).1, isDailyValuesNoise l = false) ∧
    (∀ c ∈ (extractLabeledValueUnitCandidates ocr).2,
        isDailyValuesNoise c.line = false ∧ isHeaderNoise c.line = false) := by
  refine ⟨fun l hl => extractVUC_lines ocr hl, fun c hc => ?_,
    fun l hl => extractLabeled_lines ocr hl, fun c hc => ?_⟩
  · rcases extractVUC_props ocr hc with ⟨hdv, hh, _, _⟩
    exact ⟨hdv, hh⟩
  · rcases extractLabeled_props ocr hc with ⟨hdv, hh, _, _, _⟩
    exact ⟨hdv, hh⟩

/-- A line containing `"less than"` (and no other noise marker) is kept in
`lines` and produces a candidate — refuting the claim that every
`"less than"` line is treated as daily-value noise and excluded. -/
theorem noiseLineExclusion_counterexample :
    strIncludes (jsToLower "Sodium less than 5 mg") "less than" = true ∧
    "Sodium less than 5 mg"
        ∈ (extractValueUnitCandidates ⟨"Sodium less than 5 mg", []⟩).1 ∧
    (extractValueUnitCandidates ⟨"Sodium less than 5 mg", []⟩).2
        = [⟨"5 mg", 5, "mg", "Sodium less than 5 mg", 0, none⟩] := by
  refine ⟨by decide, by decide, by decide⟩

/-- Closed instance of the amended C3 at a concrete input. -/
theorem noiseLineExclusion_witness :
    isDailyValuesNoise "Protein 5 g" = false ∧
      (isDailyValuesNoise
          (⟨"5 g", 5, "g", "Protein 5 g", 0, none⟩ : ValueUnitCandidate).line = false ∧
        isHeaderNoise
          (⟨"5 g", 5, "g", "Protein 5 g", 0, none⟩ : ValueUnitCandidate).line = false) :=
  ⟨(noiseLineExclusion ⟨"Protein 5 g", []⟩).1 "Protein 5 g" (by decide),
    (noiseLineExclusion ⟨"Protein 5 g", []⟩).2.1
      ⟨"5 g", 5, "g", "Protein 5 g", 0, none⟩ (by decide)⟩

/-! ## Facts about `serverToLabelData` -/

theorem objGet_nil (k : NutrientKey) : objGet [] k = none := rfl

theorem objGet_map_set {k k' : NutrientKey} (v : NutrientRecord) (h : k ≠ k') :
    ∀ m : List (NutrientKey × NutrientRecord),
      objGet (m.map (fun p => if p.1 = k then (k, v) else p)) k' = objGet m k' := by
  intro m
  induction m with
  | nil => rfl
  | cons p rest ih =>
    by_cases hp : p.1 = k
    · have e1 : (if p.1 = k then (k, v) else p) = (k, v) := if_pos hp
      simp only [List.map_cons, e1, objGet] at ih ⊢
      rw [List.find?_cons_of_neg _ (by simp [h]),
        List.find?_cons_of_neg _ (by simp [hp, h])]
      exact ih
    · have e1 : (if p.1 = k then (k, v) else p) = p := if_neg hp
      simp only [List.map_cons, e1, objGet] at ih ⊢
      by_cases hp' : p.1 = k'
      · rw [List.find?_cons_of_pos _ (by simp [hp']),
          List.find?_cons_of_pos _ (by simp [hp'])]
      · rw [List.find?_cons_of_neg _ (by simp [hp']),
          List.find?_cons_of_neg _ (by simp [hp'])]
        exact ih

theorem objGet_append_ne {k k' : NutrientKey} (v : NutrientRecord) (h : k ≠ k') :
    ∀ m : List (NutrientKey × NutrientRecord),
      objGet (m ++ [(k, v)]) k' = objGet m k' := by
  intro m
  induction m with
  | nil => simp [objGet, List.find?, h]
  | cons p rest ih =>
    simp only [List.cons_append, objGet] at ih ⊢
    by_cases hp : p.1 = k'
    · rw [List.find?_cons_of_pos _ (by simp [hp]),
        List.find?_cons_of_pos _ (by simp [hp])]
    · rw [List.find?_cons_of_neg _ (by simp [hp]),
        List.find?_cons_of_neg _ (by simp [hp])]
      exact ih

theorem objGet_objSet_ne {k k' : NutrientKey} (m : List (NutrientKey × NutrientRecord))
    (v : NutrientRecord) (h : k ≠ k') :
    objGet (objSet m k v) k' = objGet m k' := by
  simp only [objSet]
  split
  · exact objGet_map_set v h m
  · exact objGet_append_ne v h m

/-- A promotion-loop iteration writes only its own target key. -/
theorem parsedStep_preserve {parsed : List (String × ParsedEntry)} {sv : ℚ}
    {st : List (NutrientKey × NutrientRecord) × ℕ}
    {e : String × NutrientKey × String} {k : NutrientKey} (h : e.2.1 ≠ k) :
    objGet (parsedStep parsed sv st e).1 k = objGet st.1 k := by
  simp only [parsedStep]
  repeat' split
  all_goals first
    | rfl
    | exact objGet_objSet_ne st.1 _ h

/-- A promotion-loop iteration whose candidate fails the cross-validation
safeguard leaves the state untouched. -/
theorem parsedStep_rejects {parsed : List (String × ParsedEntry)} {sv : ℚ}
    {st : List (NutrientKey × NutrientRecord) × ℕ}
    {e : String × NutrientKey × String} {entry : ParsedEntry} {v p : ℚ}
    (hnone : objGet st.1 e.2.1 = none)
    (hentry : alistGet parsed e.1 = some entry)
    (hv : entry.perServe = some v)
    (hp : entry.per100g = some p)
    (h5 : MIN_SERVING_SIZE_G ≤ sv)
    (hdev : |v / sv * 100 - p| / max 1 p > 8 / 10) :
    parsedStep parsed sv st e = st := by
  simp only [parsedStep, hnone, hentry, hv, hp]
  simp [ge_iff_le, h5, decide_eq_true hdev]

/-- Through the whole promotion fold, a key whose only matching entry is
rejected never acquires a record. -/
theorem foldl_parsedStep_none (parsed : List (String × ParsedEntry)) (sv : ℚ)
    (k : NutrientKey) :
    ∀ (l : List (String × NutrientKey × String))
      (st : List (NutrientKey × NutrientRecord) × ℕ),
      objGet st.1 k = none →
      (∀ e ∈ l, e.2.1 = k →
        ∀ st' : List (NutrientKey × NutrientRecord) × ℕ,
          objGet st'.1 k = none → parsedStep parsed sv st' e = st') →
      objGet ((l.foldl (parsedStep parsed sv) st).1) k = none := by
  intro l
  induction l with
  | nil => intro st hst _; exact hst
  | cons e rest ih =>
    intro st hst hrej
    have hstep : objGet ((parsedStep parsed sv st e).1) k = none := by
      by_cases hek : e.2.1 = k
      · rw [hrej e (List.mem_cons_self e rest) hek st hst]; exact hst
      · rw [parsedStep_preserve hek]; exact hst
    exact ih _ hstep (fun e' he' => hrej e' (List.mem_cons_of_mem e he'))

/-! ## Claim C2 — cross-validation rejection -/

/-- **C2 (amended).**  In `serverToLabelData`'s promotion pass, when the
flat nutrient map is absent, an entry with finite per-serve and per-100g
readings and a serving size of at least 5 g is rejected outright — no
`NutrientRecord` is produced for its key — whenever the relative deviation
`|perServe / servingSize * 100 − per100g| / max(1, per100g)` strictly
exceeds `0.8`.  (The code divides by `max(1, per100g)`, not by
`expected100`; at `perServe = 12`, `per100g = 100`, `servingSize = 60` the
deviation is exactly `0.8`, so that candidate is kept, not rejected.) -/
theorem crossValidationRejects
    (d : ServerData) (parsed : List (String × ParsedEntry))
    (pk : String) (k : NutrientKey) (u : String)
    (entry : ParsedEntry) (v p sv : ℚ) (s : ServingSizeIn)
    (hflat : d.nutrients = none)
    (hparsed : d.parsedNutrients = some parsed)
    (hmem : (pk, k, u) ∈ PARSED_PROMOTION_MAP)
    (hentry : alistGet parsed pk = some entry)
    (hv : entry.perServe = some v)
    (hp : entry.per100g = some p)
    (hserv : d.servingSize = some s)
    (hsv : s.value = some sv)
    (h5 : MIN_SERVING_SIZE_G ≤ sv)
    (hdev : |v / sv * 100 - p| / max 1 p > 8 / 10) :
    resultNutrient (serverToLabelData d) k = none := by
  have hsv0 : d.servingSize.bind ServingSizeIn.value = some sv := by
    rw [hserv]; exact hsv
  have hmain : ∀ sv' : ℚ, MIN_SERVING_SIZE_G ≤ sv' → sv' = sv →
      objGet ((PARSED_PROMOTION_MAP.foldl (parsedStep parsed sv') ([], 0)).1) k
        = none := by
    intro sv' h5' hsv'
    subst hsv'
    apply foldl_parsedStep_none parsed sv' k PARSED_PROMOTION_MAP ([], 0) rfl
    intro e he hek st' hst'
    simp only [PARSED_PROMOTION_MAP, List.mem_cons, List.not_mem_nil, or_false,
      Prod.mk.injEq] at he hmem
    rcases hmem with hm | hm | hm | hm | hm | hm <;>
      obtain ⟨rfl, rfl, rfl⟩ := hm <;>
      rcases he with he | he | he | he | he | he <;>
      subst he <;>
      first
        | exact parsedStep_rejects hst' hentry hv hp h5' hdev
        | simp at hek
  simp only [serverToLabelData, hflat, hparsed, hsv0]
  rw [if_neg (by simp)]
  rw [if_neg (not_lt.mpr h5)]
  split
  · simp [resultNutrient]
  · simpa [resultNutrient, objGet] using hmain sv h5 rfl

/-- The claim's concrete example fails on the code: at `perServe = 12`,
`per100g = 100`, `servingSize = 60` the computed deviation is exactly `0.8`
(not `4.0`), `0.8 > 0.8` is false, and a record *is* produced (with
confidence `"Low"`). -/
theorem crossValidationRejects_counterexample :
    resultNutrient
        (serverToLabelData
          ⟨none, some [("protein", ⟨some 12, some 100⟩)], some ⟨some 60, "g"⟩, none⟩)
        NutrientKey.protein_g
      = some ⟨12, "g", Confidence.Low⟩ ∧
    |(12 : ℚ) / 60 * 100 - 100| / max 1 100 = 8 / 10 := by
  constructor
  · simp only [serverToLabelData, resultNutrient, parsedStep, PARSED_PROMOTION_MAP,
      alistGet, List.find?, MAX_PER_SERVE, MIN_SERVING_SIZE_G, objGet, objSet,
      List.foldl]
    simp
    norm_num
  · norm_num

/-- Closed instance of the amended C2: a per-100g reading of `300` against
an expected `20` (deviation `14/15 > 0.8`) is rejected. -/
theorem crossValidationRejects_witness :
    resultNutrient
        (serverToLabelData
          ⟨none, some [("protein", ⟨some 12, some 300⟩)], some ⟨some 60, "g"⟩, none⟩)
        NutrientKey.protein_g
      = none :=
  crossValidationRejects
    ⟨none, some [("protein", ⟨some 12, some 300⟩)], some ⟨some 60, "g"⟩, none⟩
    [("protein", ⟨some 12, some 300⟩)] "protein" NutrientKey.protein_g "g"
    ⟨some 12, some 300⟩ 12 300 60 ⟨some 60, "g"⟩
    rfl rfl (by decide) rfl rfl rfl rfl rfl (by norm_num [MIN_SERVING_SIZE_G])
    (by norm_num)

/-! ## Claim C1 — the "Med" confidence upgrade is dead code -/

/-- **C1 (divergence at the claimed input).**  At `perServe = 12`,
`per100g = 20`, `servingSize = 60` the deviation is `0` (< 0.3), so the
claim (and the in-source comment) expects confidence `"Med"`; but the
promotion loop stores its record with the literal `"Low"` — the computed
`confidence` variable is never used — so the stored confidence is `"Low"`. -/
theorem crossValidationConfidence_eval :
    resultNutrient
        (serverToLabelData
          ⟨none, some [("protein", ⟨some 12, some 20⟩)], some ⟨some 60, "g"⟩, none⟩)
        NutrientKey.protein_g
      = some ⟨12, "g", Confidence.Low⟩ ∧
    |(12 : ℚ) / 60 * 100 - 20| / 20 < 3 / 10 := by
  constructor
  · simp only [serverToLabelData, resultNutrient, parsedStep, PARSED_PROMOTION_MAP,
      alistGet, List.find?, MAX_PER_SERVE, MIN_SERVING_SIZE_G, objGet, objSet,
      List.foldl]
    simp
    norm_num
  · norm_num

/-! ## Claim C8 — serving-size sentinel policy -/

/-- **C8.**  `serverToLabelData` treats a missing, non-finite or below-5
serving size as an undetected sentinel, defaulting it to `1` rather than
reporting an error; any finite serving size of at least 5 is kept as-is.
(The hypothesis rules out the explicit serving-size promotion from OCR
debug tokens, which would overwrite the input serving size.) -/
theorem servingSizeSentinelKept
    (d : ServerData) (ld : LabelData)
    (htok : ∀ ts, d.debugTokens = some ts → ∀ t ∈ ts, ∀ v u,
      servingTokenMatch t = some (v, u) → v < MIN_SERVING_SIZE_G)
    (hres : serverToLabelData d = some ld) :
    ld.servingSizeValue = servingSentinel d := by
  have hpromoted : (match d.debugTokens with
      | some tokens =>
        tokens.findSome? fun t =>
          match servingTokenMatch t with
          | some (v, u) => if v ≥ MIN_SERVING_SIZE_G then some (v, u) else none
          | none => none
      | none => none) = (none : Option (ℚ × String)) := by
    cases hdt : d.debugTokens with
    | none => rfl
    | some ts =>
      simp only
      rw [List.findSome?_eq_none_iff]
      intro t ht
      cases hm : servingTokenMatch t with
      | none => rfl
      | some pr =>
        cases pr with
        | mk v u =>
          have hv := htok ts hdt t ht v u hm
          simp [not_le.mpr hv]
  simp only [serverToLabelData] at hres
  split at hres
  · cases hres
  · rw [hpromoted] at hres
    split at hres
    · cases hres
    · cases hres
      show (if (match (none : Option (ℚ × String)) with
            | some pr => pr.1
            | none =>
              match d.servingSize.bind ServingSizeIn.value with
              | some v => if v < MIN_SERVING_SIZE_G then 1 else v
              | none => 1) < MIN_SERVING_SIZE_G then (1 : ℚ)
          else
            match (none : Option (ℚ × String)) with
            | some pr => pr.1
            | none =>
              match d.servingSize.bind ServingSizeIn.value with
              | some v => if v < MIN_SERVING_SIZE_G then 1 else v
              | none => 1) = servingSentinel d
      simp only [servingSentinel]
      cases hds : d.servingSize with
      | none => norm_num [MIN_SERVING_SIZE_G]
      | some s =>
        have hb : (Option.some s).bind ServingSizeIn.value = s.value := rfl
        rw [hb]
        cases hdsv : s.value with
        | none => norm_num [MIN_SERVING_SIZE_G, hdsv]
        | some v =>
          simp only [hdsv]
          by_cases hv5 : v < MIN_SERVING_SIZE_G
          · simp only [if_pos hv5]
            norm_num [MIN_SERVING_SIZE_G]
          · simp only [if_neg hv5]

/-- Closed instances of C8: an input serving size of 3 g becomes the
sentinel `1`; one of 60 g is kept. -/
theorem servingSizeSentinelKept_witness :
    (LabelData.mk "per_serve" 1 "g"
          [(NutrientKey.protein_g, ⟨10, "g", Confidence.Med⟩)]).servingSizeValue
        = servingSentinel
            ⟨some [("protein_g", some 10)], none, some ⟨some 3, "g"⟩, none⟩ ∧
    (LabelData.mk "per_serve" 60 "g"
          [(NutrientKey.protein_g, ⟨10, "g", Confidence.Med⟩)]).servingSizeValue
        = servingSentinel
            ⟨some [("protein_g", some 10)], none, some ⟨some 60, "g"⟩, none⟩ :=
  ⟨servingSizeSentinelKept
      ⟨some [("protein_g", some 10)], none, some ⟨some 3, "g"⟩, none⟩
      (LabelData.mk "per_serve" 1 "g"
        [(NutrientKey.protein_g, ⟨10, "g", Confidence.Med⟩)])
      (by intro ts hts; cases hts) (by decide),
    servingSizeSentinelKept
      ⟨some [("protein_g", some 10)], none, some ⟨some 60, "g"⟩, none⟩
      (LabelData.mk "per_serve" 60 "g"
        [(NutrientKey.protein_g, ⟨10, "g", Confidence.Med⟩)])
      (by intro ts hts; cases hts) (by decide)⟩

/-! ## Claim C7 — line reconstruction partitions the token set -/

theorem findBest_lt_length (t : Token) :
    ∀ {cs : List LineAcc} {i : ℕ} {dy : ℚ},
      findBest t cs = some (i, dy) → i < cs.length := by
  intro cs
  induction cs with
  | nil => intro i dy h; simp [findBest] at h
  | cons c rest ih =>
    intro i dy h
    simp only [findBest] at h
    split at h
    · cases h; simp
    · split at h
      · cases h
        rename_i heq _
        exact Nat.succ_lt_succ (ih heq)
      · cases h; simp

theorem clustersTokens_updateAt_push (t : Token) :
    ∀ (cs : List LineAcc) (i : ℕ), i < cs.length →
      (clustersTokens (updateAt (pushToken t) i cs)).Perm
        (clustersTokens cs ++ [t]) := by
  intro cs
  induction cs with
  | nil => intro i h; cases h
  | cons c rest ih =>
    intro i hi
    cases i with
    | zero =>
      simp only [updateAt, clustersTokens, List.map_cons, List.flatten_cons,
        pushToken, List.append_assoc]
      exact List.Perm.append_left c.tokens
        (List.perm_append_comm.trans (by simp))
    | succ i =>
      simp only [updateAt, clustersTokens, List.map_cons, List.flatten_cons,
        List.append_assoc]
      refine List.Perm.append_left c.tokens ?_
      have := ih i (Nat.lt_of_succ_lt_succ hi)
      simpa [clustersTokens] using this

theorem clusterStep_perm (yTol : ℚ) (cs : List LineAcc) (t : Token) :
    (clustersTokens (clusterStep yTol cs t)).Perm (clustersTokens cs ++ [t]) := by
  simp only [clusterStep]
  split
  · split
    · rename_i i dy heq _
      exact clustersTokens_updateAt_push t cs i (findBest_lt_length t heq)
    · simp [clustersTokens, List.flatten_append]
  · simp [clustersTokens, List.flatten_append]

theorem foldl_clusterStep_perm (yTol : ℚ) :
    ∀ (l : List Token) (cs : List LineAcc),
      (clustersTokens (l.foldl (clusterStep yTol) cs)).Perm
        (clustersTokens cs ++ l) := by
  intro l
  induction l with
  | nil => intro cs; simp
  | cons t ts ih =>
    intro cs
    have h1 := ih (clusterStep yTol cs t)
    have h2 := (clusterStep_perm yTol cs t).append_right ts
    calc clustersTokens ((t :: ts).foldl (clusterStep yTol) cs)
        = clustersTokens (ts.foldl (clusterStep yTol) (clusterStep yTol cs t)) := rfl
      _ = clustersTokens (ts.foldl (clusterStep yTol) (clusterStep yTol cs t)) := rfl
    exact h1.trans (h2.trans (by simp))

theorem mem_updateAt {f : α → α} {x : α} :
    ∀ {i : ℕ} {l : List α}, x ∈ updateAt f i l → x ∈ l ∨ ∃ y ∈ l, x = f y := by
  intro i
  induction i with
  | zero =>
    intro l h
    cases l with
    | nil => simp [updateAt] at h
    | cons a rest =>
      simp only [updateAt] at h
      rcases List.mem_cons.mp h with rfl | h
      · exact Or.inr ⟨a, List.mem_cons_self a rest, rfl⟩
      · exact Or.inl (List.mem_cons_of_mem a h)
  | succ i ih =>
    intro l h
    cases l with
    | nil => simp [updateAt] at h
    | cons a rest =>
      simp only [updateAt] at h
      rcases List.mem_cons.mp h with rfl | h
      · exact Or.inl (List.mem_cons_self x rest)
      · rcases ih h with h | ⟨y, hy, rfl⟩
        · exact Or.inl (List.mem_cons_of_mem a h)
        · exact Or.inr ⟨y, List.mem_cons_of_mem a hy, rfl⟩

theorem clusterStep_nonempty {yTol : ℚ} {cs : List LineAcc} {t : Token}
    (h : ∀ c ∈ cs, c.tokens ≠ []) :
    ∀ c ∈ clusterStep yTol cs t, c.tokens ≠ [] := by
  intro c hc
  simp only [clusterStep] at hc
  split at hc
  · split at hc
    · rcases mem_updateAt hc with hc | ⟨y, hy, rfl⟩
      · exact h c hc
      · simp [pushToken]
    · rcases List.mem_append.mp hc with hc | hc
      · exact h c hc
      · simp [List.mem_singleton.mp hc]
  · rcases List.mem_append.mp hc with hc | hc
    · exact h c hc
    · simp [List.mem_singleton.mp hc]

theorem foldl_clusterStep_nonempty {yTol : ℚ} :
    ∀ {l : List Token} {cs : List LineAcc}, (∀ c ∈ cs, c.tokens ≠ []) →
      ∀ c ∈ l.foldl (clusterStep yTol) cs, c.tokens ≠ [] := by
  intro l
  induction l with
  | nil => intro cs h; exact h
  | cons t ts ih => intro cs h; exact ih (clusterStep_nonempty h)

theorem length_le_clustersTokens :
    ∀ {cs : List LineAcc}, (∀ c ∈ cs, c.tokens ≠ []) →
      cs.length ≤ (clustersTokens cs).length := by
  intro cs
  induction cs with
  | nil => intro _; simp [clustersTokens]
  | cons c rest ih =>
    intro h
    have h1 : c.tokens ≠ [] := h c (List.mem_cons_self c rest)
    have h2 : 1 ≤ c.tokens.length := List.length_pos.mpr h1
    have h3 := ih fun x hx => h x (List.mem_cons_of_mem c hx)
    simp only [clustersTokens] at h3
    simp only [clustersTokens, List.map_cons, List.flatten_cons, List.length_cons,
      List.length_append]
    omega

theorem mem_joinSpace_chars :
    ∀ {l : List String} {s : String}, s ∈ l → ∀ {ch : Char}, ch ∈ s.data →
      ch ∈ (joinSpace l).data := by
  intro l
  induction l with
  | nil => intro s hs; cases hs
  | cons a rest ih =>
    intro s hs ch hch
    cases rest with
    | nil =>
      rcases List.mem_cons.mp hs with rfl | hs
      · simpa [joinSpace] using hch
      · cases hs
    | cons b bs =>
      show ch ∈ (a ++ " " ++ joinSpace (b :: bs)).data
      rw [String.data_append, String.data_append]
      rcases List.mem_cons.mp hs with rfl | hs
      · exact List.mem_append.mpr (Or.inl (List.mem_append.mpr (Or.inl hch)))
      · exact List.mem_append.mpr (Or.inr (ih hs hch))

theorem mem_collapseWsAux {ch : Char} (hch : jsIsWs ch = false) :
    ∀ {l : List Char} {b : Bool}, ch ∈ l → ch ∈ collapseWsAux l b := by
  intro l
  induction l with
  | nil => intro b h; cases h
  | cons c rest ih =>
    intro b h
    rcases List.mem_cons.mp h with rfl | h
    · simp only [collapseWsAux, hch]
      simp
    · simp only [collapseWsAux]
      split
      · split
        · exact ih h
        · exact List.mem_cons_of_mem _ (ih h)
      · exact List.mem_cons_of_mem _ (ih h)

theorem mem_dropWhile_of_neg {p : α → Bool} {x : α} (hx : p x = false) :
    ∀ {l : List α}, x ∈ l → x ∈ l.dropWhile p := by
  intro l
  induction l with
  | nil => intro h; cases h
  | cons a rest ih =>
    intro h
    rcases List.mem_cons.mp h with rfl | h
    · rw [List.dropWhile_cons, hx]
      simp
    · rw [List.dropWhile_cons]
      split
      · exact ih h
      · exact List.mem_cons_of_mem a h

theorem mem_jsTrimL {ch : Char} (hch : jsIsWs ch = false) {l : List Char}
    (h : ch ∈ l) : ch ∈ jsTrimL l := by
  simp only [jsTrimL, List.mem_reverse]
  exact mem_dropWhile_of_neg hch (List.mem_reverse.mpr (mem_dropWhile_of_neg hch h))

/-- If one token of a line has a non-whitespace character, the joined,
collapsed and trimmed line text is non-empty. -/
theorem lineText_nonempty {toks : List Token} {tok : Token} (htok : tok ∈ toks)
    {ch : Char} (hch : ch ∈ tok.text.data) (hws : jsIsWs ch = false) :
    0 < (jsTrim (collapseWs (joinSpace (toks.map Token.text)))).length := by
  have h1 : tok.text ∈ toks.map Token.text :=
    List.mem_map.mpr ⟨tok, htok, rfl⟩
  have h2 : ch ∈ (joinSpace (toks.map Token.text)).data :=
    mem_joinSpace_chars h1 hch
  have h3 : ch ∈ (collapseWs (joinSpace (toks.map Token.text))).data :=
    mem_collapseWsAux hws h2
  have h4 : ch ∈ (jsTrim (collapseWs (joinSpace (toks.map Token.text)))).data :=
    mem_jsTrimL hws h3
  have h5 := List.length_pos.mpr (List.ne_nil_of_mem h4)
  exact h5

/-- **C7 (amended).**  For every token list in which every token's text
contains a non-whitespace character, `buildLinesFromTokens` returns at most
as many lines as tokens, and the tokens of the returned lines are a
permutation of the input — every input token occurrence lands in exactly
one line.  (A token whose text is all whitespace would be silently dropped
with its line by the empty-text filter, so plain non-emptiness is not
enough.) -/
theorem buildLines_partition (tokens : List Token)
    (h : ∀ t ∈ tokens, ∃ ch ∈ t.text.data, jsIsWs ch = false) :
    (buildLinesFromTokens tokens).length ≤ tokens.length ∧
      (((buildLinesFromTokens tokens).map BuiltLine.tokens).flatten).Perm tokens := by
  cases tokens with
  | nil => simp [buildLinesFromTokens]
  | cons t0 ts0 =>
    simp only [buildLinesFromTokens]
    have hsortedperm : (jsSortBy tokenBefore (t0 :: ts0)).Perm (t0 :: ts0) :=
      jsSortBy_perm _ _
    -- abbreviations
    generalize hyTol : max 6 ((if median (((t0 :: ts0).map Token.h).filter
        (fun x => decide (0 < x))) = 0 then 10
      else median (((t0 :: ts0).map Token.h).filter (fun x => decide (0 < x)))) *
        (6 / 10)) = yTol
    set sorted := jsSortBy tokenBefore (t0 :: ts0) with hsorted
    set clusters := sorted.foldl (clusterStep yTol) [] with hclusters
    have hperm1 : (clustersTokens clusters).Perm (t0 :: ts0) := by
      have := foldl_clusterStep_perm yTol sorted []
      simpa [clustersTokens] using this.trans hsortedperm
    have hnonempty : ∀ c ∈ clusters, c.tokens ≠ [] := by
      rw [hclusters]
      exact foldl_clusterStep_nonempty (by intro c hc; cases hc)
    set clusters2 := jsSortBy (fun a b => decide (a.yRef < b.yRef)) clusters
      with hclusters2
    have hperm2 : clusters2.Perm clusters := jsSortBy_perm _ _
    have hperm2T : (clustersTokens clusters2).Perm (clustersTokens clusters) :=
      (hperm2.map LineAcc.tokens).flatten
    have hnonempty2 : ∀ c ∈ clusters2, c.tokens ≠ [] :=
      fun c hc => hnonempty c (hperm2.mem_iff.mp hc)
    set mapped := clusters2.map (fun line =>
      BuiltLine.mk
        (jsTrim (collapseWs (joinSpace
          ((jsSortBy (fun a b => decide (a.xMin < b.xMin)) line.tokens).map
            Token.text))))
        (jsSortBy (fun a b => decide (a.xMin < b.xMin)) line.tokens)) with hmapped
    have hmappedT : ((mapped.map BuiltLine.tokens).flatten).Perm
        (clustersTokens clusters2) := by
      rw [hmapped]
      clear hmapped hperm2 hperm2T hnonempty2
      induction clusters2 with
      | nil => simp [clustersTokens]
      | cons c rest ih =>
        simp only [List.map_cons, List.flatten_cons, clustersTokens]
        exact (jsSortBy_perm _ c.tokens).append
          (by simpa [clustersTokens] using ih)
    -- every mapped line survives the empty-text filter
    have hall : ∀ bl ∈ mapped, decide (0 < bl.text.length) = true := by
      intro bl hbl
      rw [hmapped] at hbl
      rcases List.mem_map.mp hbl with ⟨line, hline, rfl⟩
      have hlinetoks : line.tokens ≠ [] := hnonempty2 line hline
      rcases List.exists_mem_of_ne_nil line.tokens hlinetoks with ⟨tok, htok⟩
      have htok2 : tok ∈ jsSortBy (fun a b => decide (a.xMin < b.xMin)) line.tokens :=
        (jsSortBy_perm _ line.tokens).mem_iff.mpr htok
      -- the token comes from the original input, so it has a good character
      have htokin : tok ∈ (t0 :: ts0) := by
        apply hperm1.mem_iff.mp
        apply hperm2T.mem_iff.mp
        simp only [clustersTokens, List.mem_flatten]
        exact ⟨line.tokens, List.mem_map.mpr ⟨line, hline, rfl⟩, htok⟩
      rcases h tok htokin with ⟨ch, hch, hws⟩
      simpa using lineText_nonempty htok2 hch hws
    rw [List.filter_eq_self.mpr hall]
    constructor
    · have hlen1 : mapped.length = clusters2.length := by
        rw [hmapped]; exact List.length_map _ _
      have hlen2 : clusters2.length = clusters.length := hperm2.length_eq
      have hlen3 : clusters.length ≤ (clustersTokens clusters).length :=
        length_le_clustersTokens hnonempty
      have hlen4 : (clustersTokens clusters).length = (t0 :: ts0).length :=
        hperm1.length_eq
      omega
    · exact hmappedT.trans (hperm2T.trans hperm1)

/-- The claim as stated (mere non-emptiness of the token texts) fails: a
single token whose text is the non-empty string `" "` produces zero lines —
the reconstructed line's text collapses to `""` and is filtered out — so
the token appears in no returned line. -/
theorem buildLines_partition_counterexample :
    buildLinesFromTokens [⟨" ", 0, 1, 0, 10, 5, 10⟩] = [] ∧
      (Token.mk " " 0 1 0 10 5 10).text ≠ "" := by
  constructor
  · decide
  · decide

/-- Closed instance of the amended C7 at a one-token input. -/
theorem buildLines_partition_witness :
    (buildLinesFromTokens [⟨"A", 0, 1, 0, 10, 5, 10⟩]).length ≤
        [(⟨"A", 0, 1, 0, 10, 5, 10⟩ : Token)].length ∧
      (((buildLinesFromTokens [⟨"A", 0, 1, 0, 10, 5, 10⟩]).map
          BuiltLine.tokens).flatten).Perm [⟨"A", 0, 1, 0, 10, 5, 10⟩] :=
  buildLines_partition [⟨"A", 0, 1, 0, 10, 5, 10⟩] (by decide)

end NutriCopy
